import Mathlib

/-!
# Verification of the cyclang lowering engine

A shallow embedding of the cyclang compiler's lowering engine
(`cyclang-backend/src/compiler/context.rs` and
`cyclang-backend/src/compiler/codegen/builder.rs`), together with proofs
of the specification claims about it.

The embedding models the LLVM builder as a state machine: basic blocks are
lists of emitted instructions, the builder's current position is a block
index, and SSA values/allocas are numbered registers.  Where the repository
relies on type implementations whose files are not part of the source tree
(the backend's `NumberType`/`BoolType` method bodies), the corresponding
definitions are marked `Modelled from the spec:` and follow the
specification's words.
-/

namespace Cyclang

/-- LLVM types, as used by the lowering engine
(`int1_type`, `int8_type`, `int32_type`, `int64_type`, pointer types). -/
inductive LTy where
  | i (w : Nat) : LTy
  | ptr (t : LTy) : LTy
  | void : LTy
deriving DecidableEq, Repr

/-- Bit width of an integer type (`LLVMGetIntTypeWidth`); 0 for non-integer types. -/
def LTy.width : LTy → Nat
  | .i w => w
  | _ => 0

/-- `LLVMIntPredicate` values used by the builder. -/
inductive Pred where
  | eq | ne | slt | sle | sgt | sge
deriving DecidableEq, Repr

/-- An LLVM value handle (`LLVMValueRef`) as the lowering engine sees it:
a numbered instruction result, an integer constant (`LLVMConstInt`, stored
as its unsigned representative), a pointer to a constant string
(`LLVMConstStringInContext` / `LLVMBuildGlobalStringPtr` /
`LLVMBuildPointerCast` of it, which emit no block instruction), or a
function reference. -/
inductive Operand where
  | reg (n : Nat) (t : LTy) : Operand
  | constI (t : LTy) (v : Int) : Operand
  | cstr (s : String) : Operand
  | fnref (name : String) : Operand
deriving DecidableEq, Repr

/-- `LLVMTypeOf` for operands. -/
def Operand.lty : Operand → LTy
  | .reg _ t => t
  | .constI t _ => t
  | .cstr _ => .ptr (.i 8)
  | .fnref _ => .ptr .void

/-- Integer width of an operand's type. -/
def Operand.width (o : Operand) : Nat := o.lty.width

/-- Instructions the builder emits into basic blocks (`LLVMBuildAlloca`,
`LLVMBuildLoad2`, `LLVMBuildStore`, `LLVMBuildICmp`,
`LLVMBuildAdd/Sub/Mul/SDiv`, `LLVMBuildSExt`, `LLVMBuildBr`,
`LLVMBuildCondBr`, `LLVMBuildRet/RetVoid`, `LLVMBuildCall2`,
`LLVMBuildGEP2`).  `dst` is the number of the result register. -/
inductive Instr where
  | alloca (dst : Nat) (t : LTy) : Instr
  | load (dst : Nat) (t : LTy) (p : Operand) : Instr
  | store (v : Operand) (p : Operand) : Instr
  | icmp (dst : Nat) (p : Pred) (a b : Operand) : Instr
  | binop (dst : Nat) (op : String) (a b : Operand) : Instr
  | sext (dst : Nat) (a : Operand) (w : Nat) : Instr
  | br (target : Nat) : Instr
  | condBr (c : Operand) (t f : Nat) : Instr
  | retVal (v : Operand) : Instr
  | retVoid : Instr
  | callFn (dst : Nat) (f : String) (args : List Operand) : Instr
  | gep (dst : Nat) (base : Operand) (idx : List Operand) : Instr
deriving DecidableEq, Repr

/-- The parser's `Type` enum (`cyclang_parser::Type`). -/
inductive CTy where
  | i32 | i64 | boolTy | strTy | listTy | noneTy
deriving DecidableEq, Repr

/-- The backend's `BaseTypes` kind tags (`compiler/types`): one per runtime
value variant. -/
inductive BaseTypes where
  | Number | Number64 | Bool | StringT | List | Func | Void | Return
deriving DecidableEq, Repr

/-- A runtime value (`Box<dyn TypeBase>`): one constructor per backend type
struct.  Fields mirror the structs: a name, the materialized LLVM value
(`llvm_value`), the optional storage location (`llvm_value_pointer`), plus
kind-specific payload (string content `str_value`, list element type,
function return type). -/
inductive RTV where
  | number (name : String) (v : Operand) (p : Option Operand) : RTV
  | number64 (name : String) (v : Operand) (p : Option Operand) : RTV
  | boolv (name : String) (v : Operand) (p : Operand) : RTV
  | strv (name : String) (content : String) (v : Operand) (p : Option Operand) : RTV
  | listv (v : Operand) (p : Operand) (t : LTy) : RTV
  | funcv (name : String) (retType : CTy) : RTV
  | voidv : RTV
  | retv : RTV
deriving DecidableEq, Repr

/-- `TypeBase::get_type`. -/
def RTV.getType : RTV → BaseTypes
  | .number .. => .Number
  | .number64 .. => .Number64
  | .boolv .. => .Bool
  | .strv .. => .StringT
  | .listv .. => .List
  | .funcv .. => .Func
  | .voidv => .Void
  | .retv => .Return

/-- `TypeBase::get_ptr` (`llvm_value_pointer`); `none` for pure constants
and for variants that have no storage location. -/
def RTV.getPtr : RTV → Option Operand
  | .number _ _ p => p
  | .number64 _ _ p => p
  | .boolv _ _ p => some p
  | .strv _ _ _ p => p
  | .listv _ p _ => some p
  | .funcv .. => none
  | .voidv => none
  | .retv => none

/-- `TypeBase::get_name_as_str`; variants without a name yield `""`. -/
def RTV.getName : RTV → String
  | .number n .. => n
  | .number64 n .. => n
  | .boolv n .. => n
  | .strv n .. => n
  | .funcv n _ => n
  | _ => ""

/-- The string payload (`StringType::get_str`) when the value is a String. -/
def RTV.getStrVal : RTV → Option String
  | .strv _ c _ _ => some c
  | _ => none

/-- The error taxonomy of the compile pipeline (spec §7).  The Rust code
raises these as `anyhow` string errors or panics; each constructor records
which taxonomy class the message/panic belongs to.  `outOfFuel` is an
artifact of the fueled embedding and never arises for sufficient fuel. -/
inductive CompileError where
  | unknownIdentifier (name : String) : CompileError
  | unsupportedOperator (op : String) : CompileError
  | kindMismatch : CompileError
  | unsupportedReturnKind : CompileError
  | panicAbort (what : String) : CompileError
  | other (what : String) : CompileError
  | outOfFuel : CompileError
deriving DecidableEq, Repr

/-! ## Association-list maps (HashMap model) -/

/-- `HashMap::get`. -/
def lookupA {κ α : Type} [DecidableEq κ] : List (κ × α) → κ → Option α
  | [], _ => none
  | (k, v) :: rest, key => if k = key then some v else lookupA rest key

/-- `HashMap::insert`: replace the binding if the key is present, else add it. -/
def insertA {κ α : Type} [DecidableEq κ] (l : List (κ × α)) (key : κ) (v : α) :
    List (κ × α) :=
  if l.any (fun p => p.1 = key) then
    l.map (fun p => if p.1 = key then (key, v) else p)
  else
    l ++ [(key, v)]

/-- `HashMap::remove`. -/
def removeA {κ α : Type} [DecidableEq κ] (l : List (κ × α)) (key : κ) :
    List (κ × α) :=
  l.filter (fun p => p.1 ≠ key)

/-! ## The variable cache (`compiler/context.rs`, `VariableCache`) -/

/-- `VariableCache`: a flat name→value map plus a depth→names index used
only for bulk eviction (`local`). -/
structure VariableCache where
  map : List (String × RTV)
  locals : List (Int × List String)
deriving DecidableEq, Repr

/-- `VariableCache::new`. -/
def VariableCache.new : VariableCache := ⟨[], []⟩

/-- `VariableCache::set`: overwrite the single slot for the name and record
the name under the given depth. -/
def VariableCache.set (c : VariableCache) (key : String) (v : RTV) (depth : Int) :
    VariableCache :=
  { map := insertA c.map key v
    locals :=
      match lookupA c.locals depth with
      | some val => insertA c.locals depth (val ++ [key])
      | none => insertA c.locals depth [key] }

/-- `VariableCache::get`: a structural copy of the binding, or `none`. -/
def VariableCache.get (c : VariableCache) (key : String) : Option RTV :=
  lookupA c.map key

/-- `VariableCache::del_locals`: remove every name recorded at the depth,
then drop the depth index. -/
def VariableCache.delLocals (c : VariableCache) (depth : Int) : VariableCache :=
  match lookupA c.locals depth with
  | some v =>
      { map := v.foldl (fun m name => removeA m name) c.map
        locals := removeA c.locals depth }
  | none => c

/-! ## Codegen state (`LLVMCodegenBuilder` + `ASTContext`) -/

/-- The combined lowering state: the `ASTContext` (variable cache, function
cache, depth) and the `LLVMCodegenBuilder` (basic blocks, builder position,
helper-function cache, current function's symbol table).  Blocks are stored
in creation order; the block id is the list index.  `nextReg` numbers SSA
values and allocas.  In the source the builder position and
`current_function.block` are updated together at every emission site, so a
single `currentBlock` models both. -/
structure CompilerState where
  varCache : VariableCache
  funcCache : VariableCache
  depth : Int
  blocks : List (List Instr)
  currentBlock : Nat
  nextReg : Nat
  llvmFuncCache : List String
  symbolTable : List (String × RTV)
deriving DecidableEq, Repr

/-- `ASTContext::incr`. -/
def incr (s : CompilerState) : CompilerState := { s with depth := s.depth + 1 }

/-- `ASTContext::decr`. -/
def decr (s : CompilerState) : CompilerState := { s with depth := s.depth - 1 }

/-- `self.var_cache.set(key, v, self.depth)` as a state update. -/
def varSet (s : CompilerState) (key : String) (v : RTV) : CompilerState :=
  { s with varCache := s.varCache.set key v s.depth }

/-- `self.func_cache.set(key, v, self.depth)` as a state update. -/
def funcSet (s : CompilerState) (key : String) (v : RTV) : CompilerState :=
  { s with funcCache := s.funcCache.set key v s.depth }

/-- `self.var_cache.del_locals(self.get_depth())` as a state update. -/
def evictLocals (s : CompilerState) : CompilerState :=
  { s with varCache := s.varCache.delLocals s.depth }

/-- Modelled from the spec: on entering a function body, the function's
symbol table (its bound parameters) becomes current and the function is
registered in the backend routine cache. -/
def enterFunc (s : CompilerState) (params : List (String × RTV)) (name : String) :
    CompilerState :=
  { s with symbolTable := params, llvmFuncCache := s.llvmFuncCache ++ [name] }

/-- Modelled from the spec: on leaving a function body the previous builder
position and symbol table are restored. -/
def restoreFunc (s : CompilerState) (block : Nat) (syms : List (String × RTV)) :
    CompilerState :=
  { s with currentBlock := block, symbolTable := syms }

/-- Append an instruction at the builder's current position
(the shared tail of every `LLVMBuild*` call). -/
def emit (s : CompilerState) (i : Instr) : CompilerState :=
  { s with blocks := s.blocks.set s.currentBlock ((s.blocks.getD s.currentBlock []) ++ [i]) }

/-- `append_basic_block`: create a fresh empty block, returning its id. -/
def appendBB (s : CompilerState) : Nat × CompilerState :=
  (s.blocks.length, { s with blocks := s.blocks ++ [[]] })

/-- `set_current_block` / `position_builder_at_end`. -/
def setCurrent (s : CompilerState) (b : Nat) : CompilerState :=
  { s with currentBlock := b }

/-- Allocate a fresh SSA/alloca number. -/
def freshReg (s : CompilerState) : Nat × CompilerState :=
  (s.nextReg, { s with nextReg := s.nextReg + 1 })

/-- `build_alloca`. -/
def buildAlloca (s : CompilerState) (t : LTy) : Operand × CompilerState :=
  let (d, s) := freshReg s
  (Operand.reg d (.ptr t), emit s (.alloca d t))

/-- `build_store`. -/
def buildStore (s : CompilerState) (v : Operand) (p : Operand) : CompilerState :=
  emit s (.store v p)

/-- `build_load`. -/
def buildLoad (s : CompilerState) (t : LTy) (p : Operand) : Operand × CompilerState :=
  let (d, s) := freshReg s
  (Operand.reg d t, emit s (.load d t p))

/-- `build_alloca_store`: allocate a stack slot, store the value, return the
pointer. -/
def buildAllocaStore (s : CompilerState) (v : Operand) (t : LTy) :
    Operand × CompilerState :=
  let (p, s) := buildAlloca s t
  (p, buildStore s v p)

/-- `build_load_store`: read from one location, write to another. -/
def buildLoadStore (s : CompilerState) (loadPtr storePtr : Operand) (t : LTy) :
    CompilerState :=
  let (v, s) := buildLoad s t loadPtr
  buildStore s v storePtr

/-- `build_br`. -/
def buildBr (s : CompilerState) (target : Nat) : CompilerState :=
  emit s (.br target)

/-- `build_cond_br`. -/
def buildCondBr (s : CompilerState) (c : Operand) (t f : Nat) : CompilerState :=
  emit s (.condBr c t f)

/-! ## Two's-complement arithmetic helpers -/

/-- Reduce an integer to its unsigned representative modulo `2 ^ w`
(how `LLVMConstInt` and the integer instructions store values). -/
def wrapU (w : Nat) (v : Int) : Int := v % (2 ^ w : Nat)

/-- Signed reading of an unsigned `w`-bit representative. -/
def toSigned (w : Nat) (v : Int) : Int :=
  if v < (2 ^ (w - 1) : Nat) then v else v - (2 ^ w : Nat)

/-! ## The syntax tree (`cyclang_parser::Expression`) -/

/-- The parser's `Expression` enum, reconstructed from its uses in
`compiler/context.rs`.  `Number` carries an `i32`, `Number64` an `i64`,
`ForStmt` three `i32` literals; the embedding uses `Int` and reduces
modulo the width at the points where the source casts. -/
inductive Expression where
  | Number (n : Int) : Expression
  | Number64 (n : Int) : Expression
  | Str (s : String) : Expression
  | Bool (b : Bool) : Expression
  | Variable (name : String) : Expression
  | List (items : List Expression) : Expression
  | ListIndex (base idx : Expression) : Expression
  | ListAssign (name : String) (idx rhs : Expression) : Expression
  | Nil : Expression
  | Binary (lhs : Expression) (op : String) (rhs : Expression) : Expression
  | Grouping (e : Expression) : Expression
  | LetStmt (name : String) (ty : CTy) (rhs : Expression) : Expression
  | BlockStmt (stmts : List Expression) : Expression
  | CallStmt (name : String) (args : List Expression) : Expression
  | FuncStmt (name : String) (args : List Expression) (ret : CTy)
      (body : Expression) : Expression
  | FuncArg (name : String) (ty : CTy) : Expression
  | IfStmt (cond thn : Expression) (els : Option Expression) : Expression
  | WhileStmt (cond body : Expression) : Expression
  | ForStmt (var : String) (init bound step : Int) (body : Expression) : Expression
  | Print (e : Expression) : Expression
  | ReturnStmt (e : Expression) : Expression

/-! ## Value-model operations -/

/-- `TypeBase::get_value` (`llvm_value`).  The Void and Return marker types
have no value; reading one is a panic in the source, modelled as an
aborting error. -/
def RTV.getValue : RTV → Except CompileError Operand
  | .number _ v _ => .ok v
  | .number64 _ v _ => .ok v
  | .boolv _ v _ => .ok v
  | .strv _ _ v _ => .ok v
  | .listv v _ _ => .ok v
  | .funcv n _ => .ok (.fnref n)
  | .voidv => .error (.panicAbort "get_value on VoidType")
  | .retv => .error (.panicAbort "get_value on ReturnType")

/-- `TypeBase::get_str`; only `StringType` implements it, anything else is
a panic in the source. -/
def RTV.getStr : RTV → Except CompileError String
  | .strv _ c _ _ => .ok c
  | _ => .error (.panicAbort "get_str")

/-- Modelled from the spec: `TypeBase::get_llvm_type` for the backend type
structs (`cyclang-backend/src/compiler/types/*.rs` is not under src/).
Number32/Number64 are fixed-width 32/64-bit integers (§4.1), Bool is a
1-bit integer, String is a byte pointer; a List carries its array type. -/
def RTV.getLlvmType : RTV → LTy
  | .number .. => .i 32
  | .number64 .. => .i 64
  | .boolv .. => .i 1
  | .strv .. => .ptr (.i 8)
  | .listv _ _ t => t
  | .funcv .. => .ptr .void
  | .voidv => .void
  | .retv => .void

/-- Modelled from the spec: `TypeBase::get_llvm_ptr_type`, the pointer type
to the value's own fixed-width type (used by `arithmetic` for the result
slot). -/
def RTV.getLlvmPtrType : RTV → LTy
  | .number .. => .ptr (.i 32)
  | .number64 .. => .ptr (.i 64)
  | .boolv .. => .ptr (.i 1)
  | .strv .. => .ptr (.ptr (.i 8))
  | r => .ptr r.getLlvmType

/-- `.replace('\"', "")` on a Rust string: removing every double-quote
character. -/
def stripQuotes (s : String) : String := ⟨s.data.filter (fun c => c ≠ '"')⟩

/-- `cast_i32_to_i64` (builder.rs): if the first value is 32 bits wide and
the second 64, sign-extend the first to 64 bits; otherwise return it
unchanged. -/
def castI32toI64 (s : CompilerState) (lhsValue rhsValue : Operand) :
    Operand × CompilerState :=
  match lhsValue.width, rhsValue.width with
  | 32, 64 =>
      let (d, s) := freshReg s
      (Operand.reg d (.i 64), emit s (.sext d lhsValue 64))
  | _, _ => (lhsValue, s)

/-- `llvm_build_fn` (builder.rs): emit the arithmetic instruction for
`+`, `-`, `*`, `/`; any other operator is `unreachable!`. -/
def llvmBuildFn (s : CompilerState) (lhs rhs : Operand) (op : String) :
    Except CompileError (Operand × CompilerState) :=
  if op = "+" ∨ op = "-" ∨ op = "*" ∨ op = "/" then
    let (d, s) := freshReg s
    .ok (.reg d lhs.lty, emit s (.binop d op lhs rhs))
  else .error (.panicAbort "llvm_build_fn unreachable operator")

/-- `arithmetic` (builder.rs): dispatch on the RIGHT operand's kind.
Strings are concatenated at lowering time (textual join with embedded
quotes removed) into a fresh constant; numbers are loaded (when stored),
mutually sign-extended via `cast_i32_to_i64`, combined, and the result is
wrapped as a `NumberType` (the 32-bit kind tag) and spilled to a fresh
slot; any other right-operand kind is `unreachable!`. -/
def arithmetic (s : CompilerState) (lhs rhs : RTV) (op : String) :
    Except CompileError (RTV × CompilerState) :=
  match rhs.getType with
  | .StringT =>
      if "sprintf" ∈ s.llvmFuncCache then do
        let ls ← lhs.getStr
        let rs ← rhs.getStr
        let newString := stripQuotes (ls ++ rs)
        .ok (.strv lhs.getName newString (.cstr newString) (some (.cstr newString)), s)
      else .error (.panicAbort "sprintf missing from llvm_func_cache")
  | .Number | .Number64 =>
      (match lhs.getPtr, rhs.getPtr with
      | some p, some rp => do
          let (lv, s) := buildLoad s lhs.getLlvmType p
          let (rv, s) := buildLoad s rhs.getLlvmType rp
          let (lv, s) := castI32toI64 s lv rv
          let (rv, s) := castI32toI64 s rv lv
          let (result, s) ← llvmBuildFn s lv rv op
          let (alloca, s) := buildAllocaStore s result lhs.getLlvmPtrType
          .ok (.number lhs.getName result (some alloca), s)
      | _, _ => do
          let lv ← lhs.getValue
          let rv ← rhs.getValue
          let (lv, s) := castI32toI64 s lv rv
          let (rv, s) := castI32toI64 s rv lv
          let (result, s) ← llvmBuildFn s lv rv op
          let (alloca, s) := buildAllocaStore s result lhs.getLlvmPtrType
          .ok (.number lhs.getName result (some alloca), s))
  | _ => .error (.panicAbort "arithmetic unreachable kinds")

/-- `icmp` (builder.rs): when the left operand is a stored `Number`, load
both sides (unwrapping the right operand's pointer), mutually sign-extend,
compare; otherwise compare the raw values.  Either way the 1-bit result is
spilled and wrapped as a `BoolType` named after the left operand. -/
def icmp (s : CompilerState) (lhs rhs : RTV) (p : Pred) :
    Except CompileError (RTV × CompilerState) :=
  match lhs.getPtr, lhs.getType with
  | some lhsPtr, .Number => do
      let (lv, s) := buildLoad s lhs.getLlvmType lhsPtr
      let rp ← match rhs.getPtr with
        | some rp => Except.ok rp
        | none => Except.error (.panicAbort "get_ptr unwrap in icmp")
      let (rv, s) := buildLoad s rhs.getLlvmType rp
      let (lv, s) := castI32toI64 s lv rv
      let (rv, s) := castI32toI64 s rv lv
      let (d, s) := freshReg s
      let s := emit s (.icmp d p lv rv)
      let (alloca, s) := buildAllocaStore s (.reg d (.i 1)) (.i 1)
      .ok (.boolv lhs.getName (.reg d (.i 1)) alloca, s)
  | _, _ => do
      let lv ← lhs.getValue
      let rv ← rhs.getValue
      let (lv, s) := castI32toI64 s lv rv
      let (rv, s) := castI32toI64 s rv lv
      let (d, s) := freshReg s
      let s := emit s (.icmp d p lv rv)
      let (alloca, s) := buildAllocaStore s (.reg d (.i 1)) (.i 1)
      .ok (.boolv lhs.getName (.reg d (.i 1)) alloca, s)

/-- `cmp` (builder.rs): dispatch on the RIGHT operand's kind.  A String
right operand short-circuits to lowering-time content equality — before
the requested operator is even examined; `Number`/`Bool` fall through to
the operator table; other kinds are `unreachable!`. -/
def cmp (s : CompilerState) (lhs rhs : RTV) (op : String) :
    Except CompileError (RTV × CompilerState) :=
  match rhs.getType with
  | .StringT => do
      let ls ← lhs.getStr
      let rs ← rhs.getStr
      let value : Bool := ls = rs
      let boolValue := Operand.constI (.i 1) (if value then 1 else 0)
      let (alloca, s) := buildAllocaStore s boolValue (.i 1)
      .ok (.boolv "bool_value" boolValue alloca, s)
  | .Number | .Bool =>
      (match op with
      | "==" => icmp s lhs rhs .eq
      | "!=" => icmp s lhs rhs .ne
      | "<" => icmp s lhs rhs .slt
      | "<=" => icmp s lhs rhs .sle
      | ">" => icmp s lhs rhs .sgt
      | ">=" => icmp s lhs rhs .sge
      | _ => .error (.panicAbort "cmp unimplemented operator"))
  | _ => .error (.panicAbort "cmp unreachable kinds")

/-! ## The visitor's literal/variable cases (`LLVMCodegenVisitor`) -/

/-- `visit_number` (context.rs): materialize an `i32`/`i64` constant, spill
it to a stack slot, wrap as `NumberType`/`NumberType64`. -/
def visitNumber (s : CompilerState) (e : Expression) :
    Except CompileError (RTV × CompilerState) :=
  match e with
  | .Number n =>
      let value := Operand.constI (.i 32) (wrapU 32 n)
      let (p, s) := buildAllocaStore s value (.ptr (.i 32))
      .ok (.number "num32" value (some p), s)
  | .Number64 n =>
      let value := Operand.constI (.i 64) (wrapU 64 n)
      let (p, s) := buildAllocaStore s value (.ptr (.i 64))
      .ok (.number64 "num64" value (some p), s)
  | _ => .error (.other "type is not a number (i32,i64)")

/-- `visit_string` (context.rs): materialize the constant string and its
pointer cast (no block instruction is emitted); the literal's text is kept
as the `str_value` payload. -/
def visitString (s : CompilerState) (e : Expression) :
    Except CompileError (RTV × CompilerState) :=
  match e with
  | .Str v => .ok (.strv "str_val" v (.cstr v) (some (.cstr v)), s)
  | _ => .error (.other "type is not a string")

/-- `visit_bool` (context.rs): materialize the 1-bit constant and spill it. -/
def visitBool (s : CompilerState) (e : Expression) :
    Except CompileError (RTV × CompilerState) :=
  match e with
  | .Bool v =>
      let boolValue := Operand.constI (.i 1) (if v then 1 else 0)
      let (alloca, s) := buildAllocaStore s boolValue (.i 1)
      .ok (.boolv "bool_value" boolValue alloca, s)
  | _ => .error (.other "type is not a bool")

/-- `visit_variable` (context.rs): the current function's symbol table
first, then the global variable cache, else `Unknown variable`. -/
def visitVariable (s : CompilerState) (e : Expression) :
    Except CompileError (RTV × CompilerState) :=
  match e with
  | .Variable input =>
      (match lookupA s.symbolTable input with
      | some val => .ok (val, s)
      | none =>
          match s.varCache.get input with
          | some val => .ok (val, s)
          | none => .error (.unknownIdentifier input))
  | _ => .error (.other "type is not an i32")

/-! ## Assignment (`TypeBase::assign`) -/

/-- `TypeBase::assign`, as invoked by the `LetStmt` arm for an existing
binding.  The String case is `StringType::assign`
(src/src/types/string.rs:62-79): for a String right-hand side it emits a
byte load from the binding's OWN storage cell and stores the loaded value
back into that same cell — the right-hand side's value is never read; a
non-String right-hand side fails (kind mismatch).  The Number/Number64/Bool
cases are Modelled from the spec: (`num.rs`/`bool.rs` are not under src/)
§4.1 "assign(new) — in-place overwrite, requires matching kind, else
fails", realized with the builder's `build_load_store` from the right-hand
side's cell into the binding's cell. -/
def RTV.assign (self : RTV) (s : CompilerState) (rhs : RTV) :
    Except CompileError CompilerState :=
  match self with
  | .strv _ _ _ p =>
      (match rhs.getType with
      | .StringT =>
          match p with
          | some alloca =>
              let (newValue, s) := buildLoad s (.i 8) alloca
              .ok (buildStore s newValue alloca)
          | none => .error (.panicAbort "StringType get_ptr: no pointer")
      | _ => .error .kindMismatch)
  | .number _ _ p =>
      (match rhs.getType with
      | .Number =>
          match p, rhs.getPtr with
          | some selfPtr, some rhsPtr => .ok (buildLoadStore s rhsPtr selfPtr (.i 32))
          | _, _ => .error (.panicAbort "assign without storage")
      | _ => .error .kindMismatch)
  | .number64 _ _ p =>
      (match rhs.getType with
      | .Number64 =>
          match p, rhs.getPtr with
          | some selfPtr, some rhsPtr => .ok (buildLoadStore s rhsPtr selfPtr (.i 64))
          | _, _ => .error (.panicAbort "assign without storage")
      | _ => .error .kindMismatch)
  | .boolv _ _ p =>
      (match rhs.getType with
      | .Bool =>
          match rhs.getPtr with
          | some rhsPtr => .ok (buildLoadStore s rhsPtr p (.i 1))
          | none => .error (.panicAbort "assign without storage")
      | _ => .error .kindMismatch)
  | _ => .error (.panicAbort "assign not supported for this kind")

/-! ## Printing (`TypeBase::print`) -/

/-- `TypeBase::print`.  The String case follows
src/src/types/string.rs (`StringType::print`): a `printf` call with the
`%s` format and the string's content.  The Number/Number64/Bool cases are
Modelled from the spec: (§4.1 render-for-print; §6 helper ABI) — load the
stored scalar and call `printf` with the kind's format string
(`%d\n` / `%llu\n`; Bool goes through `bool_to_str` and `%s\n`).  Void
prints nothing. -/
def printRTV (s : CompilerState) (v : RTV) : Except CompileError CompilerState :=
  if "printf" ∈ s.llvmFuncCache then
    match v with
    | .number _ value p =>
        let (arg, s) :=
          match p with
          | some ptr => buildLoad s (.i 32) ptr
          | none => (value, s)
        let (d, s) := freshReg s
        .ok (emit s (.callFn d "printf" [.cstr "%d\n", arg]))
    | .number64 _ value p =>
        let (arg, s) :=
          match p with
          | some ptr => buildLoad s (.i 64) ptr
          | none => (value, s)
        let (d, s) := freshReg s
        .ok (emit s (.callFn d "printf" [.cstr "%llu\n", arg]))
    | .boolv _ _ p =>
        let (arg, s) := buildLoad s (.i 1) p
        let (d, s) := freshReg s
        let s := emit s (.callFn d "bool_to_str" [arg])
        let (d2, s) := freshReg s
        .ok (emit s (.callFn d2 "printf" [.cstr "%s\n", .reg d (.ptr (.i 8))]))
    | .strv _ content _ _ =>
        let (d, s) := freshReg s
        .ok (emit s (.callFn d "printf" [.cstr "%s\n", .cstr content]))
    | .voidv => .ok s
    | _ => .error (.panicAbort "print not supported for this kind")
  else .error (.panicAbort "printf missing from llvm_func_cache")

/-- Modelled from the spec: parameter binding performed by
`LLVMFunction::new` (`codegen/context.rs` is not under src/): each declared
parameter receives a fresh backend value and is recorded in the function's
symbol table (§4.3). -/
def bindFuncArgs : List Expression → CompilerState →
    List (String × RTV) × CompilerState
  | [], s => ([], s)
  | .FuncArg n ty :: rest, s =>
      let (r, s) := freshReg s
      let rtv : RTV :=
        match ty with
        | .i32 => .number n (.reg r (.i 32)) none
        | .i64 => .number64 n (.reg r (.i 64)) none
        | .boolTy => .boolv n (.reg r (.i 1)) (.reg r (.ptr (.i 1)))
        | _ => .voidv
      let (restList, s) := bindFuncArgs rest s
      ((n, rtv) :: restList, s)
  | _ :: rest, s => bindFuncArgs rest s

/-! ## The lowering engine (`ASTContext::match_ast` and the control-flow
lowering functions of `builder.rs`)

The Rust recursion is structural on the syntax tree; the embedding makes
it total with an explicit fuel that every nested call decrements.  For
sufficient fuel the fuel never runs out. -/

mutual

/-- `ASTContext::match_ast` (context.rs): the recursive dispatcher from
syntax-tree node to runtime value. -/
def matchAst : Nat → Expression → CompilerState →
    Except CompileError (RTV × CompilerState)
  | 0, _, _ => .error .outOfFuel
  | fuel + 1, input, s =>
    match input with
    | .Number _ => visitNumber s input
    | .Number64 _ => visitNumber s input
    | .Str _ => visitString s input
    | .Bool _ => visitBool s input
    | .Variable _ => visitVariable s input
    | .ListIndex v i => do
        let (val, s) ← matchAst fuel v s
        let (index, s) ← matchAst fuel i s
        let zeroIndex := Operand.constI (.i 64) 0
        let ip ← match index.getPtr with
          | some p => Except.ok p
          | none => Except.error (.panicAbort "get_ptr unwrap in ListIndex")
        let (buildLoadIndex, s) := buildLoad s index.getLlvmType ip
        let vp ← match val.getPtr with
          | some p => Except.ok p
          | none => Except.error (.panicAbort "get_ptr unwrap in ListIndex")
        let (d, s) := freshReg s
        let s := emit s (.gep d vp [zeroIndex, buildLoadIndex])
        .ok (.number "" (.reg d (.ptr (.i 32))) (some (.reg d (.ptr (.i 32)))), s)
    | .ListAssign var i rhs =>
        (match s.varCache.get var with
        | some val => do
            let (lhs, s) ← matchAst fuel rhs s
            let (index, s) ← matchAst fuel i s
            let zeroIndex := Operand.constI (.i 64) 0
            let ip ← match index.getPtr with
              | some p => Except.ok p
              | none => Except.error (.panicAbort "get_ptr unwrap in ListAssign")
            let (buildLoadIndex, s) := buildLoad s index.getLlvmType ip
            let vp ← match val.getPtr with
              | some p => Except.ok p
              | none => Except.error (.panicAbort "get_ptr unwrap in ListAssign")
            let (d, s) := freshReg s
            let s := emit s (.gep d vp [zeroIndex, buildLoadIndex])
            let lv ← lhs.getValue
            let s := buildStore s lv (.reg d (.ptr (.i 32)))
            .ok (val, s)
        | none => .error (.panicAbort "cant assign as var does not exist"))
    | .Nil => .error (.panicAbort "unimplemented Nil")
    | .Binary l op r => do
        let (lhs, s) ← matchAst fuel l s
        let (rhs, s) ← matchAst fuel r s
        match op with
        | "+" | "-" | "/" | "*" => arithmetic s lhs rhs op
        | "^" => .error (.unsupportedOperator "^")
        | "==" | "!=" | "<" | "<=" | ">" | ">=" => cmp s lhs rhs op
        | _ => .error (.unsupportedOperator op)
    | .Grouping inner => matchAst fuel inner s
    | .LetStmt var _ lhsExpr =>
        (match s.varCache.get var with
        | some val => do
            let (lhs, s) ← matchAst fuel lhsExpr s
            let s ← val.assign s lhs
            .ok (val, s)
        | none => do
            let (lhs, s) ← matchAst fuel lhsExpr s
            let s := varSet s var lhs
            .ok (lhs, s))
    | .BlockStmt exprs => do
        let s := incr s
        let (val, s) ← matchAstSeq fuel exprs .voidv s
        let s := evictLocals s
        let s := decr s
        .ok (val, s)
    | .CallStmt name args =>
        (match s.funcCache.get name with
        | some val => do
            let (callVal, s) ← funcCall fuel val args s
            let s := varSet s name callVal
            .ok (callVal, s)
        | none => .error (.unknownIdentifier name))
    | .FuncStmt name args retTy body => do
        let (fval, s) ← llvmFunctionNew fuel name args retTy body s
        let s := funcSet s name fval
        .ok (fval, s)
    | .FuncArg n _ => .error (.other ("unreachable FuncArg " ++ n))
    | .IfStmt cond thn els => newIfStmt fuel cond thn els s
    | .WhileStmt cond body => newWhileStmt fuel cond body s
    | .ForStmt var init bound step body =>
        newForLoop fuel var init bound step body s
    | .Print inner => do
        let (v, s) ← matchAst fuel inner s
        let s ← printRTV s v
        .ok (v, s)
    | .ReturnStmt inner => do
        let (v, s) ← matchAst fuel inner s
        let rv ← v.getValue
        let s := emit s (.retVal rv)
        .ok (.retv, s)
    | .List _ => .error (.panicAbort "unimplemented List literal")

/-- The `BlockStmt` statement fold: lower each statement in order,
keeping the last result (`Void` for an empty block). -/
def matchAstSeq : Nat → List Expression → RTV → CompilerState →
    Except CompileError (RTV × CompilerState)
  | 0, _, _, _ => .error .outOfFuel
  | _ + 1, [], val, s => .ok (val, s)
  | fuel + 1, e :: rest, _, s => do
      let (v, s) ← matchAst fuel e s
      matchAstSeq fuel rest v s

/-- The call-argument fold of `FuncType::call`
(src/cyclang/src/compiler/types/func.rs): lower each argument in call
order and take its raw value. -/
def matchAstArgs : Nat → List Expression → CompilerState →
    Except CompileError (List Operand × CompilerState)
  | 0, _, _ => .error .outOfFuel
  | _ + 1, [], s => .ok ([], s)
  | fuel + 1, a :: rest, s => do
      let (v, s) ← matchAst fuel a s
      let av ← v.getValue
      let (vs, s) ← matchAstArgs fuel rest s
      .ok (av :: vs, s)

/-- `FuncType::call` (src/cyclang/src/compiler/types/func.rs): lower the
arguments, emit the backend call, and wrap the raw result per the declared
return kind; `String`/`List` return kinds are unimplemented
(UnsupportedReturnKind); `None` yields Void. -/
def funcCall : Nat → RTV → List Expression → CompilerState →
    Except CompileError (RTV × CompilerState)
  | 0, _, _, _ => .error .outOfFuel
  | fuel + 1, fval, args, s =>
    match fval with
    | .funcv fname retTy => do
        let (callArgs, s) ← matchAstArgs fuel args s
        let (d, s) := freshReg s
        let s := emit s (.callFn d fname callArgs)
        match retTy with
        | .i32 =>
            let (_, s) := buildAllocaStore s (.reg d (.i 32)) (.ptr (.i 32))
            .ok (.number "call_value" (.reg d (.i 32)) none, s)
        | .i64 =>
            let (_, s) := buildAllocaStore s (.reg d (.i 64)) (.ptr (.i 64))
            .ok (.number "call_value" (.reg d (.i 64)) none, s)
        | .boolTy =>
            let (p, s) := buildAllocaStore s (.reg d (.i 1)) (.ptr (.i 1))
            .ok (.boolv "call_value" (.reg d (.i 1)) p, s)
        | .strTy => .error .unsupportedReturnKind
        | .listTy => .error .unsupportedReturnKind
        | .noneTy => .ok (.voidv, s)
    | _ => .error (.panicAbort "call on a non-function binding")

/-- `new_if_stmt` (builder.rs): lower the condition in the entry block,
then the `then` and `else` branches into fresh blocks (branching each to
`merge` unless it yielded the Return marker; a missing else becomes an
empty block that branches straight to `merge`), then return to the entry
block and emit the conditional branch, finishing positioned at `merge`. -/
def newIfStmt : Nat → Expression → Expression → Option Expression →
    CompilerState → Except CompileError (RTV × CompilerState)
  | 0, _, _, _, _ => .error .outOfFuel
  | fuel + 1, condition, ifStmt, elseStmt, s => do
      let ifEntryBlock := s.currentBlock
      let (cond, s) ← matchAst fuel condition s
      let (thenBlock, s) := appendBB s
      let (mergeBlock, s) := appendBB s
      let s := setCurrent s thenBlock
      let (stmt, s) ← matchAst fuel ifStmt s
      let returnTypeThen : Bool := stmt.getType = .Return
      let s := if returnTypeThen then s else buildBr s mergeBlock
      let (elseBlock, s) := appendBB s
      let s := setCurrent s elseBlock
      let (returnTypeElse, s) ← match elseStmt with
        | some vStmt => do
            let (stmt2, s) ← matchAst fuel vStmt s
            if stmt2.getType = BaseTypes.Return then pure (true, s)
            else pure (false, buildBr s mergeBlock)
        | none => pure (false, buildBr s mergeBlock)
      let s := setCurrent s mergeBlock
      let s := setCurrent s ifEntryBlock
      let condPtr ← match cond.getPtr with
        | some p => Except.ok p
        | none => Except.error (.panicAbort "get_ptr unwrap in new_if_stmt")
      let (cmpReg, s) := buildLoad s (.i 1) condPtr
      let s := buildCondBr s cmpReg thenBlock elseBlock
      let s := setCurrent s mergeBlock
      let returnType : RTV := if returnTypeThen ∨ returnTypeElse then .retv else .voidv
      .ok (returnType, s)

/-- `new_while_stmt` (builder.rs): create `loop_cond`/`loop_body`/
`loop_exit`, allocate the scratch bool cell, lower the condition ONCE in
the entry block, store its loaded value, branch to `loop_cond`; the body
branches back to `loop_cond`; `loop_cond` re-loads the condition's own
storage cell and conditionally branches. -/
def newWhileStmt : Nat → Expression → Expression → CompilerState →
    Except CompileError (RTV × CompilerState)
  | 0, _, _, _ => .error .outOfFuel
  | fuel + 1, condition, whileBlockStmt, s => do
      let (loopCondBlock, s) := appendBB s
      let (loopBodyBlock, s) := appendBB s
      let (loopExitBlock, s) := appendBB s
      let (boolTypePtr, s) := buildAlloca s (.i 1)
      let (valueCondition, s) ← matchAst fuel condition s
      let condPtr ← match valueCondition.getPtr with
        | some p => Except.ok p
        | none => Except.error (.panicAbort "get_ptr unwrap in new_while_stmt")
      let (cmpReg, s) := buildLoad s (.i 1) condPtr
      let s := buildStore s cmpReg boolTypePtr
      let s := buildBr s loopCondBlock
      let s := setCurrent s loopBodyBlock
      let (_, s) ← matchAst fuel whileBlockStmt s
      let s := buildBr s loopCondBlock
      let s := setCurrent s loopCondBlock
      let (valueCondLoad, s) := buildLoad s (.i 1) condPtr
      let s := buildCondBr s valueCondLoad loopBodyBlock loopExitBlock
      let s := setCurrent s loopExitBlock
      .ok (valueCondition, s)

/-- `new_for_loop` (builder.rs): initialize the loop variable (named `i`)
from the `init` literal and bind it in the variable cache at current
depth; choose the comparison predicate once from the sign of the step
literal (`<` unless step < 0, then `>`); `loop_cond` loads the variable
and compares against the bound; the body block lowers the loop body,
reloads, adds the step, stores back, and branches to `loop_cond`.
`bound.try_into().unwrap()` panics for a negative bound; the step is cast
through `u64` and truncated to 32 bits. -/
def newForLoop : Nat → String → Int → Int → Int → Expression →
    CompilerState → Except CompileError (RTV × CompilerState)
  | 0, _, _, _, _, _, _ => .error .outOfFuel
  | fuel + 1, varName, init, length, increment, forBlockExpr, s => do
      let (loopCondBlock, s) := appendBB s
      let (loopBodyBlock, s) := appendBB s
      let (loopExitBlock, s) := appendBB s
      -- Modelled from the spec: `NumberType::new` (num.rs is not under
      -- src/) materializes the i32 constant and stores it to a fresh
      -- stack slot, like `visit_number`.
      let value := Operand.constI (.i 32) (wrapU 32 init)
      let (ptr, s) := buildAllocaStore s value (.ptr (.i 32))
      let i : RTV := .number "i" value (some ptr)
      let s := varSet s varName i
      let s := buildStore s value ptr
      let s := buildBr s loopCondBlock
      let s := setCurrent s loopCondBlock
      let op : Pred := if increment < 0 then .sgt else .slt
      let (lhsVal, s) := buildLoad s (.i 32) ptr
      if length < 0 then
        .error (.panicAbort "try_into unwrap: negative for bound")
      else do
        let icmpVal := Operand.constI (.i 32) (wrapU 32 length)
        let (d, s) := freshReg s
        let s := emit s (.icmp d op lhsVal icmpVal)
        let s := buildCondBr s (.reg d (.i 1)) loopBodyBlock loopExitBlock
        let s := setCurrent s loopBodyBlock
        let (forBlockCond, s) ← matchAst fuel forBlockExpr s
        let (lhsVal2, s) := buildLoad s (.i 32) ptr
        let incrVal := Operand.constI (.i 32) (wrapU 32 increment)
        let (d2, s) := freshReg s
        let s := emit s (.binop d2 "+" lhsVal2 incrVal)
        let s := buildStore s (.reg d2 (.i 32)) ptr
        let s := buildBr s loopCondBlock
        let s := setCurrent s loopExitBlock
        .ok (forBlockCond, s)

/-- Modelled from the spec: `LLVMFunction::new`
(`cyclang-backend/src/compiler/codegen/context.rs` is not under src/).
Per §4.3/§4.5 it creates the function with a fresh entry block, registers
it in the backend routine cache, binds the parameters in the function's
symbol table, lowers the body there, and restores the previous builder
position (the block passed in by the `FuncStmt` arm). -/
def llvmFunctionNew : Nat → String → List Expression → CTy → Expression →
    CompilerState → Except CompileError (RTV × CompilerState)
  | 0, _, _, _, _, _ => .error .outOfFuel
  | fuel + 1, name, args, retTy, body, s => do
      let savedBlock := s.currentBlock
      let savedSymbols := s.symbolTable
      let (entry, s) := appendBB s
      let s := setCurrent s entry
      let (params, s) := bindFuncArgs args s
      let s := enterFunc s params name
      let (_, s) ← matchAst fuel body s
      let s := restoreFunc s savedBlock savedSymbols
      .ok (.funcv name retTy, s)

end

/-! ## The initial session state (`LLVMCodegenBuilder::init` +
`ASTContext::init`) -/

/-- The state at session start: empty caches, depth 0, the `main` entry
block (id 0) current, and the helper routines (`bool_to_str`, `printf`,
`sprintf`) registered in the backend routine cache.  The printf format
strings are globals, not block instructions; the basic blocks inside the
`bool_to_str` helper belong to a different LLVM function and are not part
of the lowered program, so they are not modelled. -/
def initState : CompilerState :=
  { varCache := VariableCache.new
    funcCache := VariableCache.new
    depth := 0
    blocks := [[]]
    currentBlock := 0
    nextReg := 0
    llvmFuncCache := ["bool_to_str", "printf", "sprintf"]
    symbolTable := [] }

/-! ## Execution of the emitted block program

A small-step machine over the emitted basic blocks, giving the runtime
meaning of the instruction sequences the lowering produces.  Registers
and memory cells hold integer values as unsigned representatives of their
width; an alloca's own register number doubles as its address. -/

/-- A runtime machine value. -/
inductive Value where
  | intv (t : LTy) (v : Int) : Value
  | addrv (a : Nat) : Value
  | strval (s : String) : Value
  | undefv : Value
deriving DecidableEq, Repr

/-- Machine state: register file and memory. -/
structure ExecState where
  regs : List (Nat × Value)
  mem : List (Nat × Value)
deriving DecidableEq, Repr

/-- Evaluate an operand in a register file. -/
def evalOperand (regs : List (Nat × Value)) : Operand → Value
  | .reg n _ => (lookupA regs n).getD .undefv
  | .constI t v => .intv t v
  | .cstr s => .strval s
  | .fnref _ => .undefv

/-- Integer binary operations, computed on the signed readings and wrapped
to the left operand's width (`add`/`sub`/`mul` wrap; `sdiv` truncates
toward zero). -/
def binOpEval (op : String) (w : Nat) (a b : Int) : Int :=
  let x := toSigned w a
  let y := toSigned w b
  match op with
  | "+" => wrapU w (x + y)
  | "-" => wrapU w (x - y)
  | "*" => wrapU w (x * y)
  | "/" => wrapU w (Int.tdiv x y)
  | _ => 0

/-- Signed/unsigned integer comparison per `LLVMIntPredicate`. -/
def icmpEval (p : Pred) (wa wb : Nat) (a b : Int) : Bool :=
  let x := toSigned wa a
  let y := toSigned wb b
  match p with
  | .eq => x = y
  | .ne => x ≠ y
  | .slt => x < y
  | .sle => x ≤ y
  | .sgt => x > y
  | .sge => x ≥ y

/-- Loading through a pointer value at a given LLVM type.  A load from a
constant-string pointer yields the string (byte-level access is not
modelled; nothing in the lowered programs reads such a load's result). -/
def loadFrom (mem : List (Nat × Value)) (t : LTy) : Value → Value
  | .addrv a =>
      (match lookupA mem a, t with
      | some (.intv _ v), .i w => .intv (.i w) (wrapU w v)
      | some val, _ => val
      | none, _ => .undefv)
  | .strval str => .strval str
  | _ => .undefv

/-- Execute one instruction; `Sum.inr target` means a terminator fired
(`some` = jump target, `none` = return/stop). -/
def execInstr (es : ExecState) : Instr → ExecState ⊕ (Option Nat)
  | .alloca d _ =>
      .inl { regs := insertA es.regs d (.addrv d), mem := insertA es.mem d .undefv }
  | .load d t p =>
      .inl { es with regs := insertA es.regs d (loadFrom es.mem t (evalOperand es.regs p)) }
  | .store v p =>
      (match evalOperand es.regs p with
      | .addrv a => .inl { es with mem := insertA es.mem a (evalOperand es.regs v) }
      | _ => .inl es)
  | .icmp d pr a b =>
      (match evalOperand es.regs a, evalOperand es.regs b with
      | .intv ta x, .intv tb y =>
          .inl { es with regs := (insertA es.regs d
                   (.intv (.i 1) (if icmpEval pr ta.width tb.width x y then 1 else 0))) }
      | _, _ => .inl { es with regs := insertA es.regs d .undefv })
  | .binop d op a b =>
      (match evalOperand es.regs a, evalOperand es.regs b with
      | .intv ta x, .intv _ y =>
          .inl { es with regs := insertA es.regs d (.intv ta (binOpEval op ta.width x y)) }
      | _, _ => .inl { es with regs := insertA es.regs d .undefv })
  | .sext d a w =>
      (match evalOperand es.regs a with
      | .intv ta x => .inl { es with regs := insertA es.regs d (.intv (.i w) (wrapU w (toSigned ta.width x))) }
      | _ => .inl { es with regs := insertA es.regs d .undefv })
  | .br target => .inr (some target)
  | .condBr c t f =>
      (match evalOperand es.regs c with
      | .intv _ v => .inr (some (if v ≠ 0 then t else f))
      | _ => .inr none)
  | .retVal _ => .inr none
  | .retVoid => .inr none
  | .callFn d _ _ => .inl { es with regs := insertA es.regs d .undefv }
  | .gep d _ _ => .inl { es with regs := insertA es.regs d .undefv }

/-- Run the instructions of one block: final state plus the terminator's
target (`none` when the block returns or simply ends). -/
def execInstrs : List Instr → ExecState → ExecState × Option Nat
  | [], es => (es, none)
  | ins :: rest, es =>
      match execInstr es ins with
      | .inl es => execInstrs rest es
      | .inr target => (es, target)

/-- Run the block program from a given block, with fuel bounding the number
of blocks entered.  Returns the log of `(block entered, machine state at
entry)` events and the final machine state. -/
def runBlocks (blocks : List (List Instr)) : Nat → Nat → ExecState →
    List (Nat × ExecState) × ExecState
  | 0, _, es => ([], es)
  | fuel + 1, b, es =>
      match execInstrs (blocks.getD b []) es with
      | (es2, some nxt) =>
          let (log, fin) := runBlocks blocks fuel nxt es2
          ((b, es) :: log, fin)
      | (es2, none) => ([(b, es)], es2)

/-- The machine value stored in a cell at each entry to a given block, in
order: the observation used for loop-iteration claims. -/
def entryValuesAt (log : List (Nat × ExecState)) (blockId : Nat) (addr : Nat) :
    List Value :=
  log.filterMap (fun p =>
    if p.1 = blockId then some ((lookupA p.2.mem addr).getD .undefv) else none)

/-! ## The emission frame invariant

Lowering only ever appends instructions to the builder's current block and
to blocks it creates itself; pre-existing blocks other than the starting
current block are never touched, and the final position is either the
starting block or a freshly created one.  This is the well-formedness fact
behind the control-flow claims (the loop's `cond` block keeps exactly the
instructions the loop wiring put there, no matter what the body lowers). -/

/-- The builder position is a real block. -/
def WF (s : CompilerState) : Prop := s.currentBlock < s.blocks.length

instance (s : CompilerState) : Decidable (WF s) := by unfold WF; infer_instance

/-- A straight-line state change: same block structure and position, with
writes only to the current block. -/
def EmitsOnly (s s2 : CompilerState) : Prop :=
  s2.currentBlock = s.currentBlock ∧ s2.blocks.length = s.blocks.length ∧
  ∀ b, b ≠ s.currentBlock → s2.blocks[b]? = s.blocks[b]?

/-- The frame relation of a complete lowering step: blocks only grow,
pre-existing blocks other than the starting position are unchanged, and
the final position is the starting block or a fresh one (in particular it
is a real block). -/
def Frames (s s2 : CompilerState) : Prop :=
  s.blocks.length ≤ s2.blocks.length ∧
  (∀ b, b < s.blocks.length → b ≠ s.currentBlock → s2.blocks[b]? = s.blocks[b]?) ∧
  (s2.currentBlock = s.currentBlock ∨ s.blocks.length ≤ s2.currentBlock) ∧
  s2.currentBlock < s2.blocks.length

theorem EmitsOnly.rfl (s : CompilerState) : EmitsOnly s s :=
  ⟨Eq.refl _, Eq.refl _, fun _ _ => Eq.refl _⟩

theorem EmitsOnly.trans {s s2 s3 : CompilerState} (h : EmitsOnly s s2)
    (h2 : EmitsOnly s2 s3) : EmitsOnly s s3 := by
  obtain ⟨hc, hl, hb⟩ := h
  obtain ⟨hc2, hl2, hb2⟩ := h2
  exact ⟨hc2.trans hc, hl2.trans hl, fun b hbne => (hb2 b (hc ▸ hbne)).trans (hb b hbne)⟩

theorem getElem?_set_irrelevant {α : Type} (l : List α) (i b : Nat) (x : α)
    (h : b ≠ i) : (l.set i x)[b]? = l[b]? :=
  List.getElem?_set_ne (Ne.symm h)

theorem emitsOnly_emit (s : CompilerState) (i : Instr) : EmitsOnly s (emit s i) := by
  refine ⟨rfl, by simp [emit], fun b hb => ?_⟩
  simp [emit, getElem?_set_irrelevant _ _ _ _ hb]

theorem EmitsOnly.frames {s s2 : CompilerState} (hwf : WF s) (h : EmitsOnly s s2) :
    Frames s s2 := by
  obtain ⟨hc, hl, hb⟩ := h
  exact ⟨hl.ge, fun b _ hbne => hb b hbne, Or.inl hc, by unfold WF at hwf; omega⟩

theorem Frames.refl {s : CompilerState} (hwf : WF s) : Frames s s :=
  ⟨le_rfl, fun _ _ _ => rfl, Or.inl rfl, hwf⟩

theorem Frames.wf2 {s s2 : CompilerState} (h : Frames s s2) : WF s2 := h.2.2.2

theorem Frames.comp {s s2 s3 : CompilerState} (h : Frames s s2)
    (h2 : Frames s2 s3) : Frames s s3 := by
  obtain ⟨hl, hb, hc, hw⟩ := h
  obtain ⟨hl2, hb2, hc2, hw2⟩ := h2
  refine ⟨hl.trans hl2, fun b hblt hbne => ?_, ?_, hw2⟩
  · have : s3.blocks[b]? = s2.blocks[b]? := by
      rcases hc with hceq | hcge
      · exact hb2 b (lt_of_lt_of_le hblt hl) (hceq ▸ hbne)
      · exact hb2 b (lt_of_lt_of_le hblt hl) (by omega)
    exact this.trans (hb b hblt hbne)
  · rcases hc2 with hceq | hcge
    · rcases hc with hceq1 | hcge1
      · exact Or.inl (hceq.trans hceq1)
      · exact Or.inr (hceq ▸ hcge1)
    · exact Or.inr (hl.trans hcge)

theorem EmitsOnly.step {s s2 : CompilerState} (h : EmitsOnly s s2) (i : Instr) :
    EmitsOnly s (emit s2 i) := h.trans (emitsOnly_emit s2 i)

theorem EmitsOnly.upd {s s2 : CompilerState} (h : EmitsOnly s s2) {s3 : CompilerState}
    (hb : s3.blocks = s2.blocks) (hc : s3.currentBlock = s2.currentBlock) :
    EmitsOnly s s3 :=
  h.trans ⟨hc, by rw [hb], fun b _ => by rw [hb]⟩

theorem Except.bind_ok {α β : Type} {x : Except CompileError α}
    {f : α → Except CompileError β} {r : β} :
    (x >>= f = Except.ok r) ↔ ∃ a, x = .ok a ∧ f a = .ok r := by
  cases x <;> simp [Bind.bind, Except.bind]

/-! `EmitsOnly` facts for the straight-line builder operations. -/

theorem emitsOnly_freshReg (s : CompilerState) : EmitsOnly s (freshReg s).2 :=
  (EmitsOnly.rfl s).upd rfl rfl

theorem emitsOnly_buildAlloca (s : CompilerState) (t : LTy) :
    EmitsOnly s (buildAlloca s t).2 :=
  (emitsOnly_freshReg s).step _

theorem emitsOnly_buildStore (s : CompilerState) (v p : Operand) :
    EmitsOnly s (buildStore s v p) := emitsOnly_emit s _

theorem emitsOnly_buildLoad (s : CompilerState) (t : LTy) (p : Operand) :
    EmitsOnly s (buildLoad s t p).2 :=
  (emitsOnly_freshReg s).step _

theorem emitsOnly_buildAllocaStore (s : CompilerState) (v : Operand) (t : LTy) :
    EmitsOnly s (buildAllocaStore s v t).2 :=
  (emitsOnly_buildAlloca s t).step _

theorem emitsOnly_buildLoadStore (s : CompilerState) (a b : Operand) (t : LTy) :
    EmitsOnly s (buildLoadStore s a b t) :=
  (emitsOnly_buildLoad s t a).step _

theorem emitsOnly_buildBr (s : CompilerState) (t : Nat) :
    EmitsOnly s (buildBr s t) := emitsOnly_emit s _

theorem emitsOnly_buildCondBr (s : CompilerState) (c : Operand) (t f : Nat) :
    EmitsOnly s (buildCondBr s c t f) := emitsOnly_emit s _

theorem emitsOnly_castI32toI64 (s : CompilerState) (a b : Operand) :
    EmitsOnly s (castI32toI64 s a b).2 := by
  unfold castI32toI64
  split
  · exact (emitsOnly_freshReg s).step _
  · exact EmitsOnly.rfl s

theorem emitsOnly_llvmBuildFn {s : CompilerState} {a b : Operand} {op : String}
    {r : Operand} {s2 : CompilerState} (h : llvmBuildFn s a b op = .ok (r, s2)) :
    EmitsOnly s s2 := by
  unfold llvmBuildFn at h
  split at h
  · simp only [Except.ok.injEq, Prod.mk.injEq] at h
    obtain ⟨-, h2⟩ := h
    subst h2
    exact (emitsOnly_freshReg s).step _
  · exact absurd h (by simp)

theorem emitsOnly_visitNumber {s : CompilerState} {e : Expression} {v : RTV}
    {s2 : CompilerState} (h : visitNumber s e = .ok (v, s2)) : EmitsOnly s s2 := by
  unfold visitNumber at h
  split at h <;>
    first
    | (simp only [Except.ok.injEq, Prod.mk.injEq] at h
       obtain ⟨-, h2⟩ := h
       subst h2
       exact emitsOnly_buildAllocaStore s _ _)
    | exact absurd h (by simp)

theorem emitsOnly_visitString {s : CompilerState} {e : Expression} {v : RTV}
    {s2 : CompilerState} (h : visitString s e = .ok (v, s2)) : EmitsOnly s s2 := by
  unfold visitString at h
  split at h
  · simp only [Except.ok.injEq, Prod.mk.injEq] at h
    obtain ⟨-, h2⟩ := h
    subst h2
    exact EmitsOnly.rfl s
  · exact absurd h (by simp)

theorem emitsOnly_visitBool {s : CompilerState} {e : Expression} {v : RTV}
    {s2 : CompilerState} (h : visitBool s e = .ok (v, s2)) : EmitsOnly s s2 := by
  unfold visitBool at h
  split at h
  · simp only [Except.ok.injEq, Prod.mk.injEq] at h
    obtain ⟨-, h2⟩ := h
    subst h2
    exact emitsOnly_buildAllocaStore s _ _
  · exact absurd h (by simp)

theorem emitsOnly_visitVariable {s : CompilerState} {e : Expression} {v : RTV}
    {s2 : CompilerState} (h : visitVariable s e = .ok (v, s2)) : EmitsOnly s s2 := by
  unfold visitVariable at h
  split at h
  · split at h <;>
      [skip;
       split at h]
    all_goals
      first
      | (simp only [Except.ok.injEq, Prod.mk.injEq] at h
         obtain ⟨-, h2⟩ := h
         subst h2
         exact EmitsOnly.rfl s)
      | exact absurd h (by simp)
  · exact absurd h (by simp)

theorem emitsOnly_arithmetic {s : CompilerState} {lhs rhs : RTV} {op : String}
    {v : RTV} {s2 : CompilerState} (h : arithmetic s lhs rhs op = .ok (v, s2)) :
    EmitsOnly s s2 := by
  unfold arithmetic at h
  split at h
  · split at h
    · rw [Except.bind_ok] at h
      obtain ⟨ls, hls, h⟩ := h
      rw [Except.bind_ok] at h
      obtain ⟨rs, hrs, h⟩ := h
      simp only [Except.ok.injEq, Prod.mk.injEq] at h
      obtain ⟨-, h2⟩ := h
      subst h2
      exact EmitsOnly.rfl s
    · exact absurd h (by simp)
  · split at h
    · rename_i p1 rp1 hpl hpr
      split at h; rename_i lv s3 hq1
      split at h; rename_i rv s4 hq2
      split at h; rename_i lv2 s5 hq3
      split at h; rename_i rv2 s6 hq4
      rw [Except.bind_ok] at h
      obtain ⟨⟨result, s7⟩, hfn, h⟩ := h
      dsimp only at h
      simp only [Except.ok.injEq, Prod.mk.injEq] at h
      obtain ⟨-, h2⟩ := h
      subst h2
      have e1 : EmitsOnly s s3 := by
        have t := emitsOnly_buildLoad s lhs.getLlvmType p1; rw [hq1] at t; exact t
      have e2 : EmitsOnly s3 s4 := by
        have t := emitsOnly_buildLoad s3 rhs.getLlvmType rp1; rw [hq2] at t; exact t
      have e3 : EmitsOnly s4 s5 := by
        have t := emitsOnly_castI32toI64 s4 lv rv; rw [hq3] at t; exact t
      have e4 : EmitsOnly s5 s6 := by
        have t := emitsOnly_castI32toI64 s5 rv lv2; rw [hq4] at t; exact t
      have e5 : EmitsOnly s6 s7 := emitsOnly_llvmBuildFn hfn
      have e6 := emitsOnly_buildAllocaStore s7 result lhs.getLlvmPtrType
      exact e1.trans (e2.trans (e3.trans (e4.trans (e5.trans e6))))
    · rw [Except.bind_ok] at h
      obtain ⟨lv, hlv, h⟩ := h
      rw [Except.bind_ok] at h
      obtain ⟨rv, hrv, h⟩ := h
      split at h; rename_i lv2 s5 hq3
      split at h; rename_i rv2 s6 hq4
      rw [Except.bind_ok] at h
      obtain ⟨⟨result, s7⟩, hfn, h⟩ := h
      dsimp only at h
      simp only [Except.ok.injEq, Prod.mk.injEq] at h
      obtain ⟨-, h2⟩ := h
      subst h2
      have e3 : EmitsOnly s s5 := by
        have t := emitsOnly_castI32toI64 s lv rv; rw [hq3] at t; exact t
      have e4 : EmitsOnly s5 s6 := by
        have t := emitsOnly_castI32toI64 s5 rv lv2; rw [hq4] at t; exact t
      have e5 : EmitsOnly s6 s7 := emitsOnly_llvmBuildFn hfn
      have e6 := emitsOnly_buildAllocaStore s7 result lhs.getLlvmPtrType
      exact e3.trans (e4.trans (e5.trans e6))
  · split at h
    · rename_i p1 rp1 hpl hpr
      split at h; rename_i lv s3 hq1
      split at h; rename_i rv s4 hq2
      split at h; rename_i lv2 s5 hq3
      split at h; rename_i rv2 s6 hq4
      rw [Except.bind_ok] at h
      obtain ⟨⟨result, s7⟩, hfn, h⟩ := h
      dsimp only at h
      simp only [Except.ok.injEq, Prod.mk.injEq] at h
      obtain ⟨-, h2⟩ := h
      subst h2
      have e1 : EmitsOnly s s3 := by
        have t := emitsOnly_buildLoad s lhs.getLlvmType p1; rw [hq1] at t; exact t
      have e2 : EmitsOnly s3 s4 := by
        have t := emitsOnly_buildLoad s3 rhs.getLlvmType rp1; rw [hq2] at t; exact t
      have e3 : EmitsOnly s4 s5 := by
        have t := emitsOnly_castI32toI64 s4 lv rv; rw [hq3] at t; exact t
      have e4 : EmitsOnly s5 s6 := by
        have t := emitsOnly_castI32toI64 s5 rv lv2; rw [hq4] at t; exact t
      have e5 : EmitsOnly s6 s7 := emitsOnly_llvmBuildFn hfn
      have e6 := emitsOnly_buildAllocaStore s7 result lhs.getLlvmPtrType
      exact e1.trans (e2.trans (e3.trans (e4.trans (e5.trans e6))))
    · rw [Except.bind_ok] at h
      obtain ⟨lv, hlv, h⟩ := h
      rw [Except.bind_ok] at h
      obtain ⟨rv, hrv, h⟩ := h
      split at h; rename_i lv2 s5 hq3
      split at h; rename_i rv2 s6 hq4
      rw [Except.bind_ok] at h
      obtain ⟨⟨result, s7⟩, hfn, h⟩ := h
      dsimp only at h
      simp only [Except.ok.injEq, Prod.mk.injEq] at h
      obtain ⟨-, h2⟩ := h
      subst h2
      have e3 : EmitsOnly s s5 := by
        have t := emitsOnly_castI32toI64 s lv rv; rw [hq3] at t; exact t
      have e4 : EmitsOnly s5 s6 := by
        have t := emitsOnly_castI32toI64 s5 rv lv2; rw [hq4] at t; exact t
      have e5 : EmitsOnly s6 s7 := emitsOnly_llvmBuildFn hfn
      have e6 := emitsOnly_buildAllocaStore s7 result lhs.getLlvmPtrType
      exact e3.trans (e4.trans (e5.trans e6))
  · exact absurd h (by simp)

theorem emitsOnly_icmp {s : CompilerState} {lhs rhs : RTV} {p : Pred}
    {v : RTV} {s2 : CompilerState} (h : icmp s lhs rhs p = .ok (v, s2)) :
    EmitsOnly s s2 := by
  unfold icmp at h
  split at h
  · rename_i lhsPtr hqa hqb
    split at h; rename_i lv s3 hq1
    split at h
    · rename_i rp hrp
      dsimp only [Bind.bind, Except.bind] at h
      simp only [Except.ok.injEq, Prod.mk.injEq] at h
      obtain ⟨-, h2⟩ := h
      subst h2
      have e1 : EmitsOnly s s3 := by
        have t := emitsOnly_buildLoad s lhs.getLlvmType lhsPtr; rw [hq1] at t; exact t
      exact e1.trans ((emitsOnly_buildLoad s3 _ _).trans
        ((emitsOnly_castI32toI64 _ _ _).trans ((emitsOnly_castI32toI64 _ _ _).trans
          ((emitsOnly_freshReg _).trans ((emitsOnly_emit _ _).trans
            (emitsOnly_buildAllocaStore _ _ _))))))
    · exact absurd h (by simp [Bind.bind, Except.bind])
  · rw [Except.bind_ok] at h
    obtain ⟨lv, hlv, h⟩ := h
    rw [Except.bind_ok] at h
    obtain ⟨rv, hrv, h⟩ := h
    split at h; rename_i lv2 s5 hq3
    split at h; rename_i rv2 s6 hq4
    split at h; rename_i d s7 hq6
    dsimp only at h
    simp only [Except.ok.injEq, Prod.mk.injEq] at h
    obtain ⟨-, h2⟩ := h
    subst h2
    have e3 : EmitsOnly s s5 := by
      have t := emitsOnly_castI32toI64 s lv rv; rw [hq3] at t; exact t
    have e4 : EmitsOnly s5 s6 := by
      have t := emitsOnly_castI32toI64 s5 rv lv2; rw [hq4] at t; exact t
    have e6 : EmitsOnly s6 s7 := by
      have t := emitsOnly_freshReg s6; rw [hq6] at t; exact t
    exact e3.trans (e4.trans (e6.trans ((emitsOnly_emit s7 _).trans
      (emitsOnly_buildAllocaStore _ _ _))))

theorem emitsOnly_cmp {s : CompilerState} {lhs rhs : RTV} {op : String}
    {v : RTV} {s2 : CompilerState} (h : cmp s lhs rhs op = .ok (v, s2)) :
    EmitsOnly s s2 := by
  unfold cmp at h
  split at h
  · rw [Except.bind_ok] at h
    obtain ⟨ls, hls, h⟩ := h
    rw [Except.bind_ok] at h
    obtain ⟨rs, hrs, h⟩ := h
    dsimp only at h
    simp only [Except.ok.injEq, Prod.mk.injEq] at h
    obtain ⟨-, h2⟩ := h
    subst h2
    exact emitsOnly_buildAllocaStore s _ _
  · split at h <;>
      first
      | exact emitsOnly_icmp h
      | exact absurd h (by simp)
  · split at h <;>
      first
      | exact emitsOnly_icmp h
      | exact absurd h (by simp)
  · exact absurd h (by simp)

theorem emitsOnly_assign {self : RTV} {s : CompilerState} {rhs : RTV}
    {s2 : CompilerState} (h : RTV.assign self s rhs = .ok s2) : EmitsOnly s s2 := by
  unfold RTV.assign at h
  split at h
  · -- StringType::assign
    split at h
    · split at h
      · rename_i alloca
        dsimp only at h
        simp only [Except.ok.injEq] at h
        subst h
        exact (emitsOnly_buildLoad s (.i 8) alloca).step _
      · exact absurd h (by simp)
    · exact absurd h (by simp)
  · split at h
    · split at h
      · simp only [Except.ok.injEq] at h
        subst h
        exact emitsOnly_buildLoadStore _ _ _ _
      · exact absurd h (by simp)
    · exact absurd h (by simp)
  · split at h
    · split at h
      · simp only [Except.ok.injEq] at h
        subst h
        exact emitsOnly_buildLoadStore _ _ _ _
      · exact absurd h (by simp)
    · exact absurd h (by simp)
  · split at h
    · split at h
      · simp only [Except.ok.injEq] at h
        subst h
        exact emitsOnly_buildLoadStore _ _ _ _
      · exact absurd h (by simp)
    · exact absurd h (by simp)
  · exact absurd h (by simp)

theorem emitsOnly_printRTV {s : CompilerState} {v : RTV} {s2 : CompilerState}
    (h : printRTV s v = .ok s2) : EmitsOnly s s2 := by
  unfold printRTV at h
  split at h
  · split at h
    · -- number
      split at h; rename_i arg s3 hq1
      split at h; rename_i d s4 hq2
      simp only [Except.ok.injEq] at h
      subst h
      have e1 : EmitsOnly s s3 := by
        split at hq1
        · rename_i ptr
          have t := emitsOnly_buildLoad s (.i 32) ptr; rw [hq1] at t; exact t
        · simp only [Prod.mk.injEq] at hq1
          obtain ⟨-, h2⟩ := hq1
          subst h2
          exact EmitsOnly.rfl s
      have e2 : EmitsOnly s3 s4 := by
        have t := emitsOnly_freshReg s3; rw [hq2] at t; exact t
      exact e1.trans (e2.step _)
    · -- number64
      split at h; rename_i arg s3 hq1
      split at h; rename_i d s4 hq2
      simp only [Except.ok.injEq] at h
      subst h
      have e1 : EmitsOnly s s3 := by
        split at hq1
        · rename_i ptr
          have t := emitsOnly_buildLoad s (.i 64) ptr; rw [hq1] at t; exact t
        · simp only [Prod.mk.injEq] at hq1
          obtain ⟨-, h2⟩ := hq1
          subst h2
          exact EmitsOnly.rfl s
      have e2 : EmitsOnly s3 s4 := by
        have t := emitsOnly_freshReg s3; rw [hq2] at t; exact t
      exact e1.trans (e2.step _)
    · -- boolv
      rename_i name bv p
      dsimp only at h
      simp only [Except.ok.injEq] at h
      subst h
      exact ((((emitsOnly_buildLoad s (.i 1) p).trans
        (emitsOnly_freshReg _)).step _).trans (emitsOnly_freshReg _)).step _
    · -- strv
      dsimp only at h
      simp only [Except.ok.injEq] at h
      subst h
      exact ((emitsOnly_freshReg s).step _ : EmitsOnly s _)
    · -- voidv
      simp only [Except.ok.injEq] at h
      subst h
      exact EmitsOnly.rfl s
    · exact absurd h (by simp)
  · exact absurd h (by simp)

theorem blocks_bindFuncArgs (args : List Expression) (s : CompilerState) :
    (bindFuncArgs args s).2.blocks = s.blocks ∧
      (bindFuncArgs args s).2.currentBlock = s.currentBlock := by
  induction args generalizing s with
  | nil => exact ⟨rfl, rfl⟩
  | cons a rest ih =>
      cases a <;> simp only [bindFuncArgs] <;>
        first
        | exact ih s
        | exact ih (freshReg s).2

/-! Small step facts used to assemble `Frames` for the control-flow
lowering functions. -/

theorem emit_len (s : CompilerState) (i : Instr) :
    (emit s i).blocks.length = s.blocks.length := by simp [emit]

theorem appendBB_blocks (s : CompilerState) :
    (appendBB s).2.blocks = s.blocks ++ [[]] := rfl

theorem appendBB_id (s : CompilerState) : (appendBB s).1 = s.blocks.length := rfl

theorem getElem?_append_lt {α : Type} (l l2 : List α) (b : Nat)
    (h : b < l.length) : (l ++ l2)[b]? = l[b]? := by
  rw [List.getElem?_append, if_pos h]

theorem EmitsOnly.len {s s2 : CompilerState} (h : EmitsOnly s s2) :
    s2.blocks.length = s.blocks.length := h.2.1

theorem EmitsOnly.cur {s s2 : CompilerState} (h : EmitsOnly s s2) :
    s2.currentBlock = s.currentBlock := h.1

theorem EmitsOnly.pres {s s2 : CompilerState} (h : EmitsOnly s s2) (b : Nat)
    (hb : b ≠ s.currentBlock) : s2.blocks[b]? = s.blocks[b]? := h.2.2 b hb

theorem Frames.lenLe {s s2 : CompilerState} (h : Frames s s2) :
    s.blocks.length ≤ s2.blocks.length := h.1

theorem Frames.presBlk {s s2 : CompilerState} (h : Frames s s2) (b : Nat)
    (hlt : b < s.blocks.length) (hb : b ≠ s.currentBlock) :
    s2.blocks[b]? = s.blocks[b]? := h.2.1 b hlt hb

theorem Frames.curOr {s s2 : CompilerState} (h : Frames s s2) :
    s2.currentBlock = s.currentBlock ∨ s.blocks.length ≤ s2.currentBlock := h.2.2.1

theorem varSet_blocks (s : CompilerState) (key : String) (v : RTV) :
    (varSet s key v).blocks = s.blocks ∧ (varSet s key v).currentBlock = s.currentBlock :=
  ⟨rfl, rfl⟩

theorem funcSet_blocks (s : CompilerState) (key : String) (v : RTV) :
    (funcSet s key v).blocks = s.blocks ∧ (funcSet s key v).currentBlock = s.currentBlock :=
  ⟨rfl, rfl⟩

theorem EmitsOnly.varSet {s s2 : CompilerState} (h : EmitsOnly s s2)
    (key : String) (v : RTV) : EmitsOnly s (Cyclang.varSet s2 key v) :=
  h.upd (Eq.refl _) (Eq.refl _)

theorem EmitsOnly.funcSet {s s2 : CompilerState} (h : EmitsOnly s s2)
    (key : String) (v : RTV) : EmitsOnly s (Cyclang.funcSet s2 key v) :=
  h.upd (Eq.refl _) (Eq.refl _)

theorem EmitsOnly.evict {s s2 : CompilerState} (h : EmitsOnly s s2) :
    EmitsOnly s (evictLocals s2) := h.upd (Eq.refl _) (Eq.refl _)

theorem EmitsOnly.incr {s s2 : CompilerState} (h : EmitsOnly s s2) :
    EmitsOnly s (Cyclang.incr s2) := h.upd (Eq.refl _) (Eq.refl _)

theorem EmitsOnly.decr {s s2 : CompilerState} (h : EmitsOnly s s2) :
    EmitsOnly s (Cyclang.decr s2) := h.upd (Eq.refl _) (Eq.refl _)

/-- Transport a `Frames` fact along a source state with identical blocks
and position. -/
theorem Frames.congrLeft {s s1 s2 : CompilerState} (h : Frames s1 s2)
    (hb : s1.blocks = s.blocks) (hc : s1.currentBlock = s.currentBlock) :
    Frames s s2 := by
  obtain ⟨hl, hp, hcur, hwf⟩ := h
  rw [hb] at hl
  rw [hb] at hp
  rw [hc] at hp
  rw [hc] at hcur
  rw [hb] at hcur
  exact ⟨hl, hp, hcur, hwf⟩

theorem emitsOnly_iteBr (c : Prop) [Decidable c] (x : CompilerState) (m : Nat) :
    EmitsOnly x (if c then x else buildBr x m) := by
  split
  · exact EmitsOnly.rfl x
  · exact emitsOnly_buildBr x m

theorem frames_if_final (s s1 sE : CompilerState) (p : Operand) (eId : Nat)
    (hwf : WF s)
    (f1 : Frames s s1)
    (hlenE : s1.blocks.length + 2 ≤ sE.blocks.length)
    (hpresE : ∀ b, b < s.blocks.length → b ≠ s.currentBlock →
      sE.blocks[b]? = s1.blocks[b]?) :
    Frames s (setCurrent (buildCondBr
      (buildLoad (setCurrent (setCurrent sE (appendBB (appendBB s1).2).1)
        s.currentBlock) (LTy.i 1) p).2
      (buildLoad (setCurrent (setCurrent sE (appendBB (appendBB s1).2).1)
        s.currentBlock) (LTy.i 1) p).1
      (appendBB s1).1 eId)
      (appendBB (appendBB s1).2).1) := by
  have hmid : (appendBB (appendBB s1).2).1 = s1.blocks.length + 1 := by simp [appendBB]
  set sPos := setCurrent (setCurrent sE (appendBB (appendBB s1).2).1) s.currentBlock
    with hsPos
  have hPb : sPos.blocks = sE.blocks := rfl
  have hPc : sPos.currentBlock = s.currentBlock := rfl
  set sCB := buildCondBr (buildLoad sPos (LTy.i 1) p).2 (buildLoad sPos (LTy.i 1) p).1
    (appendBB s1).1 eId with hsCB
  have eF : EmitsOnly sPos sCB := (emitsOnly_buildLoad sPos (LTy.i 1) p).step _
  have hCBl : sCB.blocks.length = sE.blocks.length := by
    have := eF.len; rw [hPb] at this; exact this
  have hlen1 := f1.lenLe
  have hfl : (setCurrent sCB (appendBB (appendBB s1).2).1).blocks.length
      = sCB.blocks.length := rfl
  have hfc : (setCurrent sCB (appendBB (appendBB s1).2).1).currentBlock
      = s1.blocks.length + 1 := hmid
  have hfb : ∀ b : Nat, (setCurrent sCB (appendBB (appendBB s1).2).1).blocks[b]?
      = sCB.blocks[b]? := fun _ => rfl
  refine ⟨by omega, ?_, by omega, by omega⟩
  intro b hblt hbne
  rw [hfb b]
  have t1 : sCB.blocks[b]? = sE.blocks[b]? := by
    have := eF.pres b (by rw [hPc]; exact hbne)
    rw [hPb] at this; exact this
  rw [t1, hpresE b hblt hbne, f1.presBlk b hblt hbne]

theorem frames_newIfStmt_aux (n : Nat)
    (ihA : ∀ e s v s2, WF s → matchAst n e s = .ok (v, s2) → Frames s s2) :
    ∀ c t e s v s2, WF s → newIfStmt (n + 1) c t e s = .ok (v, s2) → Frames s s2 := by
  intro c t e s v s2 hwf h
  rw [newIfStmt] at h
  rw [Except.bind_ok] at h
  obtain ⟨⟨cv, s1⟩, hcond, h⟩ := h
  dsimp only at h
  rw [Except.bind_ok] at h
  obtain ⟨⟨tv, sthen⟩, hthen, h⟩ := h
  dsimp only at h
  -- common facts: cond and then lowering
  have f1 : Frames s s1 := ihA _ _ _ _ hwf hcond
  set thenStart := setCurrent (appendBB (appendBB s1).2).2 (appendBB s1).1
    with hthenStart
  have hTSl : thenStart.blocks.length = s1.blocks.length + 2 := by
    simp [hthenStart, setCurrent, appendBB]
  have hTSc : thenStart.currentBlock = s1.blocks.length := rfl
  have hwfTS : WF thenStart := by unfold WF; rw [hTSl, hTSc]; omega
  have f2 : Frames thenStart sthen := ihA _ _ _ _ hwfTS hthen
  have hTHl : s1.blocks.length + 2 ≤ sthen.blocks.length := by
    have := f2.lenLe; rw [hTSl] at this; exact this
  have hTHc : s1.blocks.length ≤ sthen.currentBlock := by
    rcases f2.curOr with hc | hc
    · rw [hc, hTSc]
    · rw [hTSl] at hc; omega
  have hpres2 : ∀ b, b < s.blocks.length → b ≠ s.currentBlock →
      sthen.blocks[b]? = s1.blocks[b]? := by
    intro b hblt hbne
    have hb1 : b < s1.blocks.length := lt_of_lt_of_le hblt f1.lenLe
    have := f2.presBlk b (by rw [hTSl]; omega) (by rw [hTSc]; omega)
    calc sthen.blocks[b]? = thenStart.blocks[b]? := this
      _ = ((appendBB s1).2.blocks ++ [[]])[b]? := rfl
      _ = s1.blocks[b]? := by
          rw [getElem?_append_lt _ _ _ (by simp [appendBB]; omega)]
          exact getElem?_append_lt _ _ _ hb1
  -- the state after the optional branch-to-merge
  set tIte := if decide (tv.getType = BaseTypes.Return) = true then sthen
    else buildBr sthen (appendBB (appendBB s1).2).1 with htIte
  have eIte : EmitsOnly sthen tIte := emitsOnly_iteBr _ sthen _
  have hIl : s1.blocks.length + 2 ≤ tIte.blocks.length := by
    rw [eIte.len]; exact hTHl
  have hIpres : ∀ b, b < s.blocks.length → b ≠ s.currentBlock →
      tIte.blocks[b]? = s1.blocks[b]? := by
    intro b hblt hbne
    have hf1 := f1.lenLe
    have := eIte.pres b (by omega)
    rw [this]; exact hpres2 b hblt hbne
  clear_value tIte
  split at h
  · -- else present
    rename_i vStmt
    rw [Except.bind_ok] at h
    obtain ⟨⟨ev, selse⟩, helse, h⟩ := h
    dsimp only at h
    have hESl : (setCurrent (appendBB tIte).2 (appendBB tIte).1).blocks.length
        = tIte.blocks.length + 1 := by
      show (tIte.blocks ++ [[]]).length = tIte.blocks.length + 1
      simp
    have hESc : (setCurrent (appendBB tIte).2 (appendBB tIte).1).currentBlock
        = tIte.blocks.length := rfl
    have hwfES : WF (setCurrent (appendBB tIte).2 (appendBB tIte).1) := by
      unfold WF; rw [hESl, hESc]; omega
    have f3 : Frames (setCurrent (appendBB tIte).2 (appendBB tIte).1) selse :=
      ihA _ _ _ _ hwfES helse
    have hEl : tIte.blocks.length + 1 ≤ selse.blocks.length := by
      have := f3.lenLe; rw [hESl] at this; exact this
    have hEc : tIte.blocks.length ≤ selse.currentBlock := by
      rcases f3.curOr with hc | hc
      · rw [hc, hESc]
      · rw [hESl] at hc; omega
    have hpres3 : ∀ b, b < s.blocks.length → b ≠ s.currentBlock →
        selse.blocks[b]? = s1.blocks[b]? := by
      intro b hblt hbne
      have := f3.presBlk b (by rw [hESl]; have := f1.lenLe; omega) (by rw [hESc]; have := f1.lenLe; omega)
      calc selse.blocks[b]? = (setCurrent (appendBB tIte).2 (appendBB tIte).1).blocks[b]? := this
        _ = tIte.blocks[b]? := by
            show (tIte.blocks ++ [[]])[b]? = tIte.blocks[b]?
            exact getElem?_append_lt _ _ _ (by have := f1.lenLe; omega)
        _ = s1.blocks[b]? := hIpres b hblt hbne
    split at h
    · -- else branch yielded Return: no branch to merge
      dsimp only [Pure.pure, Bind.bind, Except.bind, Except.pure] at h
      split at h
      · rename_i p hp
        simp only [Except.ok.injEq, Prod.mk.injEq] at h
        obtain ⟨-, h2⟩ := h
        subst h2
        refine frames_if_final s s1 selse p _ hwf f1 ?_ hpres3
        have := f1.lenLe; omega
      · exact absurd h (by simp)
    · -- else branch branches to merge
      dsimp only [Pure.pure, Bind.bind, Except.bind, Except.pure] at h
      split at h
      · rename_i p hp
        simp only [Except.ok.injEq, Prod.mk.injEq] at h
        obtain ⟨-, h2⟩ := h
        subst h2
        refine frames_if_final s s1 (buildBr selse (appendBB (appendBB s1).2).1) p _ hwf f1 ?_ ?_
        · have hq := (emitsOnly_buildBr selse (appendBB (appendBB s1).2).1).len
          rw [hq]; have := f1.lenLe; omega
        · intro b hblt hbne
          have := (emitsOnly_buildBr selse (appendBB (appendBB s1).2).1).pres b
            (by have := f1.lenLe; omega)
          rw [this]; exact hpres3 b hblt hbne
      · exact absurd h (by simp)
  · -- else absent: fresh else block branches straight to merge
    dsimp only [Pure.pure, Bind.bind, Except.bind, Except.pure] at h
    split at h
    · rename_i p hp
      simp only [Except.ok.injEq, Prod.mk.injEq] at h
      obtain ⟨-, h2⟩ := h
      subst h2
      refine frames_if_final s s1
        (buildBr (setCurrent (appendBB tIte).2 (appendBB tIte).1) (appendBB (appendBB s1).2).1)
        p _ hwf f1 ?_ ?_
      · have hq := (emitsOnly_buildBr (setCurrent (appendBB tIte).2 (appendBB tIte).1)
          (appendBB (appendBB s1).2).1).len
        rw [hq]
        have : (setCurrent (appendBB tIte).2 (appendBB tIte).1).blocks.length
            = tIte.blocks.length + 1 := by
          show (tIte.blocks ++ [[]]).length = tIte.blocks.length + 1
          simp
        omega
      · intro b hblt hbne
        have hp1 := (emitsOnly_buildBr (setCurrent (appendBB tIte).2 (appendBB tIte).1)
          (appendBB (appendBB s1).2).1).pres b (by
            show b ≠ tIte.blocks.length
            have := f1.lenLe; omega)
        rw [hp1]
        calc (setCurrent (appendBB tIte).2 (appendBB tIte).1).blocks[b]?
            = (tIte.blocks ++ [[]])[b]? := rfl
          _ = tIte.blocks[b]? := getElem?_append_lt _ _ _ (by have := f1.lenLe; omega)
          _ = s1.blocks[b]? := hIpres b hblt hbne
    · exact absurd h (by simp)

theorem frames_newWhileStmt_aux (n : Nat)
    (ihA : ∀ e s v s2, WF s → matchAst n e s = .ok (v, s2) → Frames s s2) :
    ∀ c bo s v s2, WF s → newWhileStmt (n + 1) c bo s = .ok (v, s2) → Frames s s2 := by
  intro c bo s v s2 hwf h
  rw [newWhileStmt] at h
  rw [Except.bind_ok] at h
  obtain ⟨⟨vc, s7⟩, hcond, h⟩ := h
  dsimp only at h
  split at h
  · rename_i p hp
    dsimp only [Bind.bind, Except.bind] at h
    split at h
    · exact absurd h (by simp)
    rename_i bres hbody
    obtain ⟨bv, s12⟩ := bres
    dsimp only at h
    simp only [Except.ok.injEq, Prod.mk.injEq] at h
    obtain ⟨-, h2⟩ := h
    subst h2
    set sA := (appendBB (appendBB (appendBB s).2).2).2 with hsA
    set s6 := (buildAlloca sA (.i 1)).2 with hs6
    have hAb : sA.blocks = s.blocks ++ [[]] ++ [[]] ++ [[]] := rfl
    have hAc : sA.currentBlock = s.currentBlock := rfl
    have hAl : sA.blocks.length = s.blocks.length + 3 := by simp [hAb]
    have e6 : EmitsOnly sA s6 := emitsOnly_buildAlloca sA (.i 1)
    have hwf6 : WF s6 := by
      unfold WF at hwf ⊢
      rw [e6.cur, e6.len, hAc, hAl]
      omega
    have f7 : Frames s6 s7 := ihA _ _ _ _ hwf6 hcond
    have hlen7 : s.blocks.length + 3 ≤ s7.blocks.length := by
      have := f7.lenLe; rw [e6.len, hAl] at this; exact this
    have hcur7 : s7.currentBlock = s.currentBlock ∨ s.blocks.length + 3 ≤ s7.currentBlock := by
      rcases f7.curOr with hc | hc
      · exact Or.inl (by rw [hc, e6.cur, hAc])
      · exact Or.inr (by rw [e6.len, hAl] at hc; exact hc)
    set s10 := buildBr (buildStore (buildLoad s7 (.i 1) p).2 (buildLoad s7 (.i 1) p).1
      (buildAlloca sA (.i 1)).1) (appendBB s).1 with hs10
    set s11 := setCurrent s10 (appendBB (appendBB s).2).1 with hs11
    have e10 : EmitsOnly s7 s10 :=
      ((emitsOnly_buildLoad s7 (.i 1) p).step _).step _
    have hid1 : (appendBB s).1 = s.blocks.length := rfl
    have hid2 : (appendBB (appendBB s).2).1 = s.blocks.length + 1 := by
      simp [appendBB]
    have hid3 : (appendBB (appendBB (appendBB s).2).2).1 = s.blocks.length + 2 := by
      simp [appendBB]
    have h11b : s11.blocks = s10.blocks := rfl
    have h11c : s11.currentBlock = s.blocks.length + 1 := by
      rw [hs11, setCurrent, hid2]
    have hwf11 : WF s11 := by
      unfold WF
      rw [h11c]
      have : s11.blocks.length = s7.blocks.length := by rw [h11b, e10.len]
      omega
    have f12 : Frames s11 s12 := ihA _ _ _ _ hwf11 hbody
    have hlen12 : s7.blocks.length ≤ s12.blocks.length := by
      have := f12.lenLe
      rw [h11b, e10.len] at this
      exact this
    have hcur12 : s.blocks.length ≤ s12.currentBlock := by
      rcases f12.curOr with hc | hc
      · rw [hc, h11c]; omega
      · rw [h11b, e10.len] at hc; omega
    set s14 := setCurrent (buildBr s12 (appendBB s).1) (appendBB s).1 with hs14
    set s16 := buildCondBr (buildLoad s14 (.i 1) p).2 (buildLoad s14 (.i 1) p).1
      (appendBB (appendBB s).2).1 (appendBB (appendBB (appendBB s).2).2).1 with hs16
    have e13 : EmitsOnly s12 (buildBr s12 (appendBB s).1) := emitsOnly_buildBr s12 _
    have h14b : s14.blocks = (buildBr s12 (appendBB s).1).blocks := rfl
    have h14c : s14.currentBlock = s.blocks.length := by rw [hs14, setCurrent, hid1]
    have e16 : EmitsOnly s14 s16 := (emitsOnly_buildLoad s14 (.i 1) p).step _
    have hlen16 : s12.blocks.length = s16.blocks.length := by
      rw [e16.len, h14b, e13.len]
    have hfl : (setCurrent s16 (appendBB (appendBB (appendBB s).2).2).1).blocks.length
        = s16.blocks.length := rfl
    have hfc : (setCurrent s16 (appendBB (appendBB (appendBB s).2).2).1).currentBlock
        = s.blocks.length + 2 := hid3
    have hfb : ∀ b : Nat,
        (setCurrent s16 (appendBB (appendBB (appendBB s).2).2).1).blocks[b]?
          = s16.blocks[b]? := fun _ => rfl
    refine ⟨by omega, ?_, by omega, by omega⟩
    intro b hblt hbne
    rw [hfb b]
    have t1 : sA.blocks[b]? = s.blocks[b]? := by
      rw [hAb]
      rw [getElem?_append_lt _ _ _ (by simp; omega)]
      rw [getElem?_append_lt _ _ _ (by simp; omega)]
      exact getElem?_append_lt _ _ _ hblt
    have t2 : s6.blocks[b]? = sA.blocks[b]? := e6.pres b (by rw [hAc]; exact hbne)
    have t3 : s7.blocks[b]? = s6.blocks[b]? :=
      f7.presBlk b (by rw [e6.len, hAl]; omega) (by rw [e6.cur, hAc]; exact hbne)
    have t4 : s10.blocks[b]? = s7.blocks[b]? := by
      refine e10.pres b ?_
      rcases hcur7 with hc | hc
      · rw [hc]; exact hbne
      · omega
    have t5 : s12.blocks[b]? = s10.blocks[b]? := by
      have := f12.presBlk b (by rw [h11b, e10.len]; omega) (by rw [h11c]; omega)
      rw [h11b] at this
      exact this
    have t6 : (buildBr s12 (appendBB s).1).blocks[b]? = s12.blocks[b]? :=
      e13.pres b (by omega)
    have t7 : s16.blocks[b]? = (buildBr s12 (appendBB s).1).blocks[b]? := by
      have := e16.pres b (by rw [h14c]; omega)
      rw [h14b] at this
      exact this
    exact t7.trans (t6.trans (t5.trans (t4.trans (t3.trans (t2.trans t1)))))
  · exact absurd h (by simp [Bind.bind, Except.bind])

theorem frames_newForLoop_aux (n : Nat)
    (ihA : ∀ e s v s2, WF s → matchAst n e s = .ok (v, s2) → Frames s s2) :
    ∀ vn a bd st bo s v s2, WF s →
      newForLoop (n + 1) vn a bd st bo s = .ok (v, s2) → Frames s s2 := by
  intro vn a bd st bo s v s2 hwf h
  rw [newForLoop] at h
  dsimp only at h
  split at h
  · exact absurd h (by simp)
  · dsimp only [Bind.bind, Except.bind] at h
    split at h
    · exact absurd h (by simp)
    rename_i bres hbody
    obtain ⟨bv, s12⟩ := bres
    dsimp only at h
    simp only [Except.ok.injEq, Prod.mk.injEq] at h
    obtain ⟨-, h2⟩ := h
    subst h2
    set value := Operand.constI (LTy.i 32) (wrapU 32 a) with hval
    set sA := (appendBB (appendBB (appendBB s).2).2).2 with hsA
    set ptr := (buildAllocaStore sA value (LTy.i 32).ptr).1 with hptr
    set sVS := varSet (buildAllocaStore sA value (LTy.i 32).ptr).2 vn
      (RTV.number "i" value (some ptr)) with hsVS
    set s10 := buildBr (buildStore sVS value ptr) (appendBB s).1 with hs10
    set s11 := setCurrent s10 (appendBB s).1 with hs11
    have hid1 : (appendBB s).1 = s.blocks.length := rfl
    have hid2 : (appendBB (appendBB s).2).1 = s.blocks.length + 1 := by simp [appendBB]
    have hid3 : (appendBB (appendBB (appendBB s).2).2).1 = s.blocks.length + 2 := by
      simp [appendBB]
    have hAb : sA.blocks = s.blocks ++ [[]] ++ [[]] ++ [[]] := rfl
    have hAc : sA.currentBlock = s.currentBlock := rfl
    have hAl : sA.blocks.length = s.blocks.length + 3 := by simp [hAb]
    have e10 : EmitsOnly sA s10 :=
      (((emitsOnly_buildAllocaStore sA value (LTy.i 32).ptr).varSet _ _).step _).step _
    have h11b : s11.blocks = s10.blocks := rfl
    have h11c : s11.currentBlock = s.blocks.length := hid1
    set sBody := setCurrent (buildCondBr
        (emit (freshReg (buildLoad s11 (LTy.i 32) ptr).2).2
          (Instr.icmp (freshReg (buildLoad s11 (LTy.i 32) ptr).2).1
            (if st < 0 then Pred.sgt else Pred.slt)
            (buildLoad s11 (LTy.i 32) ptr).1 (Operand.constI (LTy.i 32) (wrapU 32 bd))))
        (Operand.reg (freshReg (buildLoad s11 (LTy.i 32) ptr).2).1 (LTy.i 1))
        (appendBB (appendBB s).2).1 (appendBB (appendBB (appendBB s).2).2).1)
      (appendBB (appendBB s).2).1 with hsBody
    have eCond : EmitsOnly s11 (buildCondBr
        (emit (freshReg (buildLoad s11 (LTy.i 32) ptr).2).2
          (Instr.icmp (freshReg (buildLoad s11 (LTy.i 32) ptr).2).1
            (if st < 0 then Pred.sgt else Pred.slt)
            (buildLoad s11 (LTy.i 32) ptr).1 (Operand.constI (LTy.i 32) (wrapU 32 bd))))
        (Operand.reg (freshReg (buildLoad s11 (LTy.i 32) ptr).2).1 (LTy.i 1))
        (appendBB (appendBB s).2).1 (appendBB (appendBB (appendBB s).2).2).1) :=
      ((((emitsOnly_buildLoad s11 (LTy.i 32) ptr).upd (Eq.refl _) (Eq.refl _)).step _).step _)
    have hBodyb : sBody.blocks.length = s11.blocks.length := by
      rw [hsBody]
      exact eCond.len
    have hBodyc : sBody.currentBlock = s.blocks.length + 1 := hid2
    have hwfBody : WF sBody := by
      unfold WF
      rw [hBodyc, hBodyb, h11b, e10.len, hAl]
      omega
    have f12 : Frames sBody s12 := ihA _ _ _ _ hwfBody hbody
    have hlen12 : s.blocks.length + 3 ≤ s12.blocks.length := by
      have := f12.lenLe
      rw [hBodyb, h11b, e10.len, hAl] at this
      exact this
    have hcur12 : s.blocks.length ≤ s12.currentBlock := by
      rcases f12.curOr with hc | hc
      · rw [hc, hBodyc]; omega
      · rw [hBodyb, h11b, e10.len, hAl] at hc; omega
    set sTail := buildBr (buildStore
        (emit (freshReg (buildLoad s12 (LTy.i 32) ptr).2).2
          (Instr.binop (freshReg (buildLoad s12 (LTy.i 32) ptr).2).1 "+"
            (buildLoad s12 (LTy.i 32) ptr).1 (Operand.constI (LTy.i 32) (wrapU 32 st))))
        (Operand.reg (freshReg (buildLoad s12 (LTy.i 32) ptr).2).1 (LTy.i 32)) ptr)
      (appendBB s).1 with hsTail
    have eTail : EmitsOnly s12 sTail := by
      rw [hsTail]
      exact ((((emitsOnly_buildLoad s12 (LTy.i 32) ptr).upd (Eq.refl _) (Eq.refl _)).step _).step _).step _
    have hfl : (setCurrent sTail (appendBB (appendBB (appendBB s).2).2).1).blocks.length
        = sTail.blocks.length := rfl
    have hfc : (setCurrent sTail (appendBB (appendBB (appendBB s).2).2).1).currentBlock
        = s.blocks.length + 2 := hid3
    have hfb : ∀ b : Nat,
        (setCurrent sTail (appendBB (appendBB (appendBB s).2).2).1).blocks[b]?
          = sTail.blocks[b]? := fun _ => rfl
    have hTl : sTail.blocks.length = s12.blocks.length := eTail.len
    refine ⟨by omega, ?_, by omega, by omega⟩
    intro b hblt hbne
    rw [hfb b]
    have t1 : sA.blocks[b]? = s.blocks[b]? := by
      rw [hAb]
      rw [getElem?_append_lt _ _ _ (by simp; omega)]
      rw [getElem?_append_lt _ _ _ (by simp; omega)]
      exact getElem?_append_lt _ _ _ hblt
    have t2 : s10.blocks[b]? = sA.blocks[b]? := e10.pres b (by rw [hAc]; exact hbne)
    have t3 : sBody.blocks[b]? = s11.blocks[b]? := by
      rw [hsBody]
      exact eCond.pres b (by rw [h11c]; omega)
    have t4 : s12.blocks[b]? = sBody.blocks[b]? :=
      f12.presBlk b (by rw [hBodyb, h11b, e10.len, hAl]; omega) (by rw [hBodyc]; omega)
    have t5 : sTail.blocks[b]? = s12.blocks[b]? := eTail.pres b (by omega)
    rw [t5, t4, t3, h11b, t2, t1]

theorem frames_llvmFunctionNew_aux (n : Nat)
    (ihA : ∀ e s v s2, WF s → matchAst n e s = .ok (v, s2) → Frames s s2) :
    ∀ nm args r bo s v s2, WF s →
      llvmFunctionNew (n + 1) nm args r bo s = .ok (v, s2) → Frames s s2 := by
  intro nm args r bo s v s2 hwf h
  rw [llvmFunctionNew] at h
  dsimp only [Bind.bind, Except.bind] at h
  split at h
  · exact absurd h (by simp)
  rename_i bres hbody
  obtain ⟨bv, sB⟩ := bres
  dsimp only at h
  simp only [Except.ok.injEq, Prod.mk.injEq] at h
  obtain ⟨-, h2⟩ := h
  subst h2
  set sEnter := enterFunc (bindFuncArgs args (setCurrent (appendBB s).2 (appendBB s).1)).2
    (bindFuncArgs args (setCurrent (appendBB s).2 (appendBB s).1)).1 nm with hsEnter
  have hEb : sEnter.blocks = s.blocks ++ [[]] := by
    rw [hsEnter]
    show (bindFuncArgs args (setCurrent (appendBB s).2 (appendBB s).1)).2.blocks
      = s.blocks ++ [[]]
    rw [(blocks_bindFuncArgs args _).1]
    rfl
  have hEc : sEnter.currentBlock = s.blocks.length := by
    rw [hsEnter]
    show (bindFuncArgs args (setCurrent (appendBB s).2 (appendBB s).1)).2.currentBlock
      = s.blocks.length
    rw [(blocks_bindFuncArgs args _).2]
    rfl
  have hEl : sEnter.blocks.length = s.blocks.length + 1 := by rw [hEb]; simp
  have hwfE : WF sEnter := by unfold WF; omega
  have fB : Frames sEnter sB := ihA _ _ _ _ hwfE hbody
  have hBl : s.blocks.length + 1 ≤ sB.blocks.length := by
    have := fB.lenLe; omega
  refine ⟨?_, ?_, ?_, ?_⟩
  · show s.blocks.length ≤ sB.blocks.length
    omega
  · intro b hblt hbne
    show sB.blocks[b]? = s.blocks[b]?
    have t1 : sB.blocks[b]? = sEnter.blocks[b]? := fB.presBlk b (by omega) (by omega)
    rw [t1, hEb]
    exact getElem?_append_lt _ _ _ hblt
  · exact Or.inl rfl
  · show s.currentBlock < sB.blocks.length
    unfold WF at hwf
    omega

theorem frames_funcCall_aux (n : Nat)
    (ihArgs : ∀ es s vs s2, WF s → matchAstArgs n es s = .ok (vs, s2) → Frames s s2) :
    ∀ f es s v s2, WF s → funcCall (n + 1) f es s = .ok (v, s2) → Frames s s2 := by
  intro f es s v s2 hwf h
  cases f with
  | funcv fname retTy =>
    rw [funcCall] at h
    dsimp only [Bind.bind, Except.bind] at h
    split at h
    · exact absurd h (by simp)
    rename_i ares hargs
    obtain ⟨vs, sA⟩ := ares
    dsimp only at h
    have fA : Frames s sA := ihArgs _ _ _ _ hwf hargs
    have hwfA : WF sA := fA.wf2
    split at h
    · simp only [Except.ok.injEq, Prod.mk.injEq] at h
      obtain ⟨-, h2⟩ := h
      subst h2
      exact fA.comp ((((emitsOnly_freshReg sA).step _).trans
        (emitsOnly_buildAllocaStore _ _ _)).frames hwfA)
    · simp only [Except.ok.injEq, Prod.mk.injEq] at h
      obtain ⟨-, h2⟩ := h
      subst h2
      exact fA.comp ((((emitsOnly_freshReg sA).step _).trans
        (emitsOnly_buildAllocaStore _ _ _)).frames hwfA)
    · simp only [Except.ok.injEq, Prod.mk.injEq] at h
      obtain ⟨-, h2⟩ := h
      subst h2
      exact fA.comp ((((emitsOnly_freshReg sA).step _).trans
        (emitsOnly_buildAllocaStore _ _ _)).frames hwfA)
    · simp at h
    · simp at h
    · simp only [Except.ok.injEq, Prod.mk.injEq] at h
      obtain ⟨-, h2⟩ := h
      subst h2
      exact fA.comp (((emitsOnly_freshReg sA).step _).frames hwfA)
  | number a b c => unfold funcCall at h; simp at h
  | number64 a b c => unfold funcCall at h; simp at h
  | boolv a b c => unfold funcCall at h; simp at h
  | strv a b c d => unfold funcCall at h; simp at h
  | listv a b c => unfold funcCall at h; simp at h
  | voidv => unfold funcCall at h; simp at h
  | retv => unfold funcCall at h; simp at h

theorem frames_matchAstSeq_aux (n : Nat)
    (ihA : ∀ e s v s2, WF s → matchAst n e s = .ok (v, s2) → Frames s s2)
    (ihSeq : ∀ es acc s v s2, WF s → matchAstSeq n es acc s = .ok (v, s2) → Frames s s2) :
    ∀ es acc s v s2, WF s → matchAstSeq (n + 1) es acc s = .ok (v, s2) → Frames s s2 := by
  intro es acc s v s2 hwf h
  match es with
  | [] =>
      rw [matchAstSeq] at h
      simp only [Except.ok.injEq, Prod.mk.injEq] at h
      obtain ⟨-, h2⟩ := h
      subst h2
      exact Frames.refl hwf
  | e :: rest =>
      rw [matchAstSeq] at h
      rw [Except.bind_ok] at h
      obtain ⟨⟨v1, s3⟩, h1, h⟩ := h
      dsimp only at h
      have f1 : Frames s s3 := ihA _ _ _ _ hwf h1
      exact f1.comp (ihSeq _ _ _ _ _ f1.wf2 h)

theorem frames_matchAstArgs_aux (n : Nat)
    (ihA : ∀ e s v s2, WF s → matchAst n e s = .ok (v, s2) → Frames s s2)
    (ihArgs : ∀ es s vs s2, WF s → matchAstArgs n es s = .ok (vs, s2) → Frames s s2) :
    ∀ es s vs s2, WF s → matchAstArgs (n + 1) es s = .ok (vs, s2) → Frames s s2 := by
  intro es s vs s2 hwf h
  match es with
  | [] =>
      rw [matchAstArgs] at h
      simp only [Except.ok.injEq, Prod.mk.injEq] at h
      obtain ⟨-, h2⟩ := h
      subst h2
      exact Frames.refl hwf
  | a :: rest =>
      rw [matchAstArgs] at h
      rw [Except.bind_ok] at h
      obtain ⟨⟨v1, s3⟩, h1, h⟩ := h
      dsimp only at h
      rw [Except.bind_ok] at h
      obtain ⟨av, hav, h⟩ := h
      rw [Except.bind_ok] at h
      obtain ⟨⟨vs1, s4⟩, hrest, h⟩ := h
      dsimp only at h
      simp only [Except.ok.injEq, Prod.mk.injEq] at h
      obtain ⟨-, h2⟩ := h
      subst h2
      have f1 : Frames s s3 := ihA _ _ _ _ hwf h1
      exact f1.comp (ihArgs _ _ _ _ f1.wf2 hrest)

theorem frames_matchAst_aux (n : Nat)
    (ihA : ∀ e s v s2, WF s → matchAst n e s = .ok (v, s2) → Frames s s2)
    (ihSeq : ∀ es acc s v s2, WF s → matchAstSeq n es acc s = .ok (v, s2) → Frames s s2)
    (ihCall : ∀ f es s v s2, WF s → funcCall n f es s = .ok (v, s2) → Frames s s2)
    (ihIf : ∀ c t e s v s2, WF s → newIfStmt n c t e s = .ok (v, s2) → Frames s s2)
    (ihWhile : ∀ c b s v s2, WF s → newWhileStmt n c b s = .ok (v, s2) → Frames s s2)
    (ihFor : ∀ vn a bd st b s v s2, WF s →
      newForLoop n vn a bd st b s = .ok (v, s2) → Frames s s2)
    (ihFn : ∀ nm a r b s v s2, WF s →
      llvmFunctionNew n nm a r b s = .ok (v, s2) → Frames s s2) :
    ∀ e s v s2, WF s → matchAst (n + 1) e s = .ok (v, s2) → Frames s s2 := by
  intro e s v s2 hwf h
  cases e with
  | Number a =>
      rw [matchAst] at h
      exact (emitsOnly_visitNumber h).frames hwf
  | Number64 a =>
      rw [matchAst] at h
      exact (emitsOnly_visitNumber h).frames hwf
  | Str a =>
      rw [matchAst] at h
      exact (emitsOnly_visitString h).frames hwf
  | Bool a =>
      rw [matchAst] at h
      exact (emitsOnly_visitBool h).frames hwf
  | Variable a =>
      rw [matchAst] at h
      exact (emitsOnly_visitVariable h).frames hwf
  | ListIndex lv li =>
      rw [matchAst] at h
      rw [Except.bind_ok] at h
      obtain ⟨⟨val, s3⟩, h1, h⟩ := h
      dsimp only at h
      rw [Except.bind_ok] at h
      obtain ⟨⟨index, s4⟩, h2, h⟩ := h
      try dsimp only [Bind.bind, Except.bind, Except.pure] at h
      split at h
      swap
      · simp at h
      rename_i ip hip
      try dsimp only [Bind.bind, Except.bind, Except.pure] at h
      split at h
      swap
      · simp at h
      rename_i vp hvp
      try dsimp only [Bind.bind, Except.bind, Except.pure] at h
      simp only [Except.ok.injEq, Prod.mk.injEq] at h
      obtain ⟨-, h3⟩ := h
      subst h3
      have f1 : Frames s s3 := ihA _ _ _ _ hwf h1
      have f2 : Frames s3 s4 := ihA _ _ _ _ f1.wf2 h2
      exact f1.comp (f2.comp
        ((((emitsOnly_buildLoad s4 _ _).upd (Eq.refl _) (Eq.refl _)).step _).frames f2.wf2))
  | ListAssign nm li rhs =>
      rw [matchAst] at h
      split at h
      swap
      · simp at h
      rename_i val hval
      rw [Except.bind_ok] at h
      obtain ⟨⟨lhs, s3⟩, h1, h⟩ := h
      dsimp only at h
      rw [Except.bind_ok] at h
      obtain ⟨⟨index, s4⟩, h2, h⟩ := h
      try dsimp only [Bind.bind, Except.bind, Except.pure] at h
      split at h
      swap
      · simp at h
      rename_i ip hip
      try dsimp only [Bind.bind, Except.bind, Except.pure] at h
      split at h
      swap
      · simp at h
      rename_i vp hvp
      try dsimp only [Bind.bind, Except.bind, Except.pure] at h
      split at h
      · simp at h
      rename_i lvv hlvv
      try dsimp only [Bind.bind, Except.bind, Except.pure] at h
      simp only [Except.ok.injEq, Prod.mk.injEq] at h
      obtain ⟨-, h3⟩ := h
      subst h3
      have f1 : Frames s s3 := ihA _ _ _ _ hwf h1
      have f2 : Frames s3 s4 := ihA _ _ _ _ f1.wf2 h2
      exact f1.comp (f2.comp
        (((((emitsOnly_buildLoad s4 _ _).upd (Eq.refl _) (Eq.refl _)).step _).step _).frames f2.wf2))
  | Nil =>
      rw [matchAst] at h
      simp at h
  | Binary l op r =>
      rw [matchAst] at h
      rw [Except.bind_ok] at h
      obtain ⟨⟨lhs, s3⟩, h1, h⟩ := h
      dsimp only at h
      rw [Except.bind_ok] at h
      obtain ⟨⟨rhs, s4⟩, h2, h⟩ := h
      dsimp only at h
      have f1 : Frames s s3 := ihA _ _ _ _ hwf h1
      have f2 : Frames s3 s4 := ihA _ _ _ _ f1.wf2 h2
      split at h
      all_goals
        first
        | exact f1.comp (f2.comp ((emitsOnly_arithmetic h).frames f2.wf2))
        | exact f1.comp (f2.comp ((emitsOnly_cmp h).frames f2.wf2))
        | simp at h
  | Grouping inner =>
      rw [matchAst] at h
      exact ihA _ _ _ _ hwf h
  | LetStmt nm ty rhs =>
      rw [matchAst] at h
      split at h
      · rename_i val hval
        rw [Except.bind_ok] at h
        obtain ⟨⟨lhs, s3⟩, h1, h⟩ := h
        dsimp only at h
        rw [Except.bind_ok] at h
        obtain ⟨s4, h2, h⟩ := h
        simp only [Except.ok.injEq, Prod.mk.injEq] at h
        obtain ⟨-, h3⟩ := h
        subst h3
        have f1 : Frames s s3 := ihA _ _ _ _ hwf h1
        exact f1.comp ((emitsOnly_assign h2).frames f1.wf2)
      · rw [Except.bind_ok] at h
        obtain ⟨⟨lhs, s3⟩, h1, h⟩ := h
        dsimp only at h
        simp only [Except.ok.injEq, Prod.mk.injEq] at h
        obtain ⟨-, h3⟩ := h
        subst h3
        have f1 : Frames s s3 := ihA _ _ _ _ hwf h1
        exact f1.comp (((EmitsOnly.rfl s3).varSet _ _).frames f1.wf2)
  | BlockStmt exprs =>
      rw [matchAst] at h
      rw [Except.bind_ok] at h
      obtain ⟨⟨val, s3⟩, h1, h⟩ := h
      dsimp only at h
      simp only [Except.ok.injEq, Prod.mk.injEq] at h
      obtain ⟨-, h3⟩ := h
      subst h3
      have hwfI : WF (incr s) := hwf
      have f1 : Frames (incr s) s3 := ihSeq _ _ _ _ _ hwfI h1
      have f1s : Frames s s3 := f1.congrLeft rfl rfl
      exact f1s.comp ((((EmitsOnly.rfl s3).evict).decr).frames f1s.wf2)
  | CallStmt nm args =>
      rw [matchAst] at h
      split at h
      · rename_i val hval
        rw [Except.bind_ok] at h
        obtain ⟨⟨cv, s3⟩, h1, h⟩ := h
        dsimp only at h
        simp only [Except.ok.injEq, Prod.mk.injEq] at h
        obtain ⟨-, h3⟩ := h
        subst h3
        have f1 : Frames s s3 := ihCall _ _ _ _ _ hwf h1
        exact f1.comp (((EmitsOnly.rfl s3).varSet _ _).frames f1.wf2)
      · simp at h
  | FuncStmt nm args r bo =>
      rw [matchAst] at h
      rw [Except.bind_ok] at h
      obtain ⟨⟨fv, s3⟩, h1, h⟩ := h
      dsimp only at h
      simp only [Except.ok.injEq, Prod.mk.injEq] at h
      obtain ⟨-, h3⟩ := h
      subst h3
      have f1 : Frames s s3 := ihFn _ _ _ _ _ _ _ hwf h1
      exact f1.comp (((EmitsOnly.rfl s3).funcSet _ _).frames f1.wf2)
  | FuncArg nm ty =>
      rw [matchAst] at h
      simp at h
  | IfStmt c t e => rw [matchAst] at h; exact ihIf _ _ _ _ _ _ hwf h
  | WhileStmt c bo => rw [matchAst] at h; exact ihWhile _ _ _ _ _ hwf h
  | ForStmt vn a bd st bo =>
      rw [matchAst] at h
      exact ihFor _ _ _ _ _ _ _ _ hwf h
  | Print inner =>
      rw [matchAst] at h
      rw [Except.bind_ok] at h
      obtain ⟨⟨pv, s3⟩, h1, h⟩ := h
      dsimp only at h
      rw [Except.bind_ok] at h
      obtain ⟨s4, h2, h⟩ := h
      simp only [Except.ok.injEq, Prod.mk.injEq] at h
      obtain ⟨-, h3⟩ := h
      subst h3
      have f1 : Frames s s3 := ihA _ _ _ _ hwf h1
      exact f1.comp ((emitsOnly_printRTV h2).frames f1.wf2)
  | ReturnStmt inner =>
      rw [matchAst] at h
      rw [Except.bind_ok] at h
      obtain ⟨⟨rv, s3⟩, h1, h⟩ := h
      dsimp only at h
      rw [Except.bind_ok] at h
      obtain ⟨rvv, h2, h⟩ := h
      simp only [Except.ok.injEq, Prod.mk.injEq] at h
      obtain ⟨-, h3⟩ := h
      subst h3
      have f1 : Frames s s3 := ihA _ _ _ _ hwf h1
      exact f1.comp ((emitsOnly_emit s3 _).frames f1.wf2)
  | List items =>
      rw [matchAst] at h
      simp at h

theorem framesAll : ∀ n : Nat,
    (∀ e s v s2, WF s → matchAst n e s = .ok (v, s2) → Frames s s2) ∧
    (∀ es acc s v s2, WF s → matchAstSeq n es acc s = .ok (v, s2) → Frames s s2) ∧
    (∀ es s vs s2, WF s → matchAstArgs n es s = .ok (vs, s2) → Frames s s2) ∧
    (∀ f es s v s2, WF s → funcCall n f es s = .ok (v, s2) → Frames s s2) ∧
    (∀ c t e s v s2, WF s → newIfStmt n c t e s = .ok (v, s2) → Frames s s2) ∧
    (∀ c b s v s2, WF s → newWhileStmt n c b s = .ok (v, s2) → Frames s s2) ∧
    (∀ vn a bd st b s v s2, WF s →
      newForLoop n vn a bd st b s = .ok (v, s2) → Frames s s2) ∧
    (∀ nm a r b s v s2, WF s →
      llvmFunctionNew n nm a r b s = .ok (v, s2) → Frames s s2) := by
  intro n
  induction n with
  | zero =>
      refine ⟨?_, ?_, ?_, ?_, ?_, ?_, ?_, ?_⟩ <;> (intros; rename_i h; simp_all [matchAst,
        matchAstSeq, matchAstArgs, funcCall, newIfStmt, newWhileStmt, newForLoop,
        llvmFunctionNew])
  | succ n ih =>
      obtain ⟨ihA, ihSeq, ihArgs, ihCall, ihIf, ihWhile, ihFor, ihFn⟩ := ih
      exact ⟨frames_matchAst_aux n ihA ihSeq ihCall ihIf ihWhile ihFor ihFn,
        frames_matchAstSeq_aux n ihA ihSeq,
        frames_matchAstArgs_aux n ihA ihArgs,
        frames_funcCall_aux n ihArgs,
        frames_newIfStmt_aux n ihA,
        frames_newWhileStmt_aux n ihA,
        frames_newForLoop_aux n ihA,
        frames_llvmFunctionNew_aux n ihA⟩

/-- The lowering engine writes instructions only into its current block and
into blocks it creates; every pre-existing block other than the starting
position is preserved, and lowering finishes positioned either at the
starting block or at a block it created. -/
theorem matchAst_frames (fuel : Nat) (e : Expression) (s : CompilerState)
    (v : RTV) (s2 : CompilerState) (hwf : WF s)
    (h : matchAst fuel e s = .ok (v, s2)) : Frames s s2 :=
  (framesAll fuel).1 e s v s2 hwf h

/-! ## Helper lemmas for the claim theorems -/

theorem lookupA_replaceKey {κ α : Type} [DecidableEq κ] (l : List (κ × α)) (k : κ) (v : α)
    (h : l.any (fun p => p.1 = k) = true) :
    lookupA (l.map (fun p => if p.1 = k then (k, v) else p)) k = some v := by
  induction l with
  | nil => simp at h
  | cons hd tl ih =>
      obtain ⟨k1, v1⟩ := hd
      simp only [List.map_cons]
      by_cases h1 : k1 = k
      · subst h1
        rw [if_pos (show ((k1, v1) : κ × α).1 = k1 from rfl)]
        simp [lookupA]
      · rw [if_neg h1]
        have h2 : tl.any (fun p => p.1 = k) = true := by simpa [h1] using h
        simp [lookupA, h1, ih h2]

theorem lookupA_appendKey {κ α : Type} [DecidableEq κ] (l : List (κ × α)) (k : κ) (v : α)
    (h : l.any (fun p => p.1 = k) = false) :
    lookupA (l ++ [(k, v)]) k = some v := by
  induction l with
  | nil => simp [lookupA]
  | cons hd tl ih =>
      obtain ⟨k1, v1⟩ := hd
      simp only [List.any_cons, Bool.or_eq_false_iff] at h
      obtain ⟨h1, h2⟩ := h
      simp only [decide_eq_false_iff_not] at h1
      simp [lookupA, h1, ih h2]

theorem lookupA_insertA {κ α : Type} [DecidableEq κ] (l : List (κ × α)) (k : κ) (v : α) :
    lookupA (insertA l k v) k = some v := by
  unfold insertA
  split
  · rename_i h
    exact lookupA_replaceKey l k v h
  · rename_i h
    exact lookupA_appendKey l k v (by rwa [Bool.not_eq_true] at h)

theorem VariableCache.get_set_self (c : VariableCache) (k : String) (v : RTV) (d : Int) :
    (c.set k v d).get k = some v :=
  lookupA_insertA c.map k v

theorem emit_at (s : CompilerState) (i : Instr) :
    (emit s i).blocks[s.currentBlock]? = (s.blocks[s.currentBlock]?).map (fun l => l ++ [i]) := by
  show (s.blocks.set s.currentBlock (s.blocks.getD s.currentBlock [] ++ [i]))[s.currentBlock]? = _
  by_cases h : s.currentBlock < s.blocks.length
  · rw [List.getElem?_set_self h, List.getD_eq_getElem?_getD, List.getElem?_eq_getElem h]
    rfl
  · rw [List.set_eq_of_length_le (by omega), List.getElem?_eq_none (by omega)]
    rfl

theorem blocks_at_emit {s : CompilerState} {b : Nat} (hb : s.currentBlock = b) (i : Instr) :
    (emit s i).blocks[b]? = (s.blocks[b]?).map (fun l => l ++ [i]) := by
  subst hb
  exact emit_at s i

theorem map_append_nil (x : Option (List Instr)) : x = x.map (fun l => l ++ []) := by
  cases x <;> simp

theorem blocks_at_emit_chain {t : CompilerState} {b : Nat} {x : Option (List Instr)}
    (hc : t.currentBlock = b) (l1 : List Instr)
    (h : t.blocks[b]? = x.map (fun l => l ++ l1)) (i : Instr) :
    (emit t i).blocks[b]? = x.map (fun l => l ++ (l1 ++ [i])) := by
  rw [blocks_at_emit hc, h]
  cases x with
  | none => rfl
  | some l => simp

/-- **C4.** The symbol table is flat, not scope-stacked: `set` overwrites the
single slot for a name regardless of depth; evicting a depth removes every
name declared at that depth, so a shadowed-then-evicted name is gone, not
restored; a nested declaration is unreadable (`UnknownIdentifier`) after its
block exits; a name declared outside and only assigned inside keeps its
assigned value after the block (the stored cell holds 2 and the print reads
2). -/
theorem C4_flat_symbol_table :
    (∀ (c : VariableCache) (k : String) (v1 v2 : RTV) (d1 d2 : Int),
        ((c.set k v1 d1).set k v2 d2).get k = some v2) ∧
    (∀ (k : String) (v1 v2 : RTV),
        (((VariableCache.new.set k v1 0).set k v2 1).delLocals 1).get k = none) ∧
    (matchAst 9 (.BlockStmt [.LetStmt "x" .i32 (.Number 1),
        .BlockStmt [.LetStmt "y" .i32 (.Number 2)], .Variable "y"]) initState
      = .error (.unknownIdentifier "y")) ∧
    (∃ v s2, matchAst 9 (.BlockStmt [.LetStmt "x" .i32 (.Number 1),
        .BlockStmt [.LetStmt "x" .i32 (.Number 2)], .Print (.Variable "x")]) initState
      = .ok (v, s2) ∧
      lookupA (runBlocks s2.blocks 10 0 ⟨[], []⟩).2.mem 0 = some (.intv (.i 32) 2) ∧
      lookupA (runBlocks s2.blocks 10 0 ⟨[], []⟩).2.regs 3 = some (.intv (.i 32) 2)) := by
  refine ⟨?_, ?_, by rfl, ?_⟩
  · intro c k v1 v2 d1 d2
    exact VariableCache.get_set_self _ k v2 d2
  · intro k v1 v2
    simp [VariableCache.new, VariableCache.set, VariableCache.delLocals, VariableCache.get,
      insertA, lookupA, removeA]
  · exact ⟨_, _, rfl, by decide, by decide⟩

/-- **C10.** Every numeric arithmetic result is wrapped as a `NumberType`
with the 32-bit `Number` kind tag, never `Number64`, regardless of the
operands' widths. -/
theorem C10_arith_result_kind (s : CompilerState) (lhs rhs : RTV) (op : String)
    (v : RTV) (s2 : CompilerState)
    (hr : rhs.getType = BaseTypes.Number ∨ rhs.getType = BaseTypes.Number64)
    (h : arithmetic s lhs rhs op = .ok (v, s2)) :
    v.getType = BaseTypes.Number ∧ v.getType ≠ BaseTypes.Number64 := by
  unfold arithmetic at h
  have hN : v.getType = BaseTypes.Number := by
    split at h
    · rename_i hS
      rcases hr with hr | hr <;> rw [hr] at hS <;> exact absurd hS (by simp)
    · split at h
      · try dsimp only [Bind.bind, Except.bind] at h
        split at h
        · exact absurd h (by simp)
        · rename_i r hfn
          obtain ⟨result, s5⟩ := r
          dsimp only at h
          simp only [Except.ok.injEq, Prod.mk.injEq] at h
          obtain ⟨h4, -⟩ := h
          rw [← h4]
          rfl
      · try dsimp only [Bind.bind, Except.bind] at h
        split at h
        · exact absurd h (by simp)
        · rename_i lv hlv
          try dsimp only at h
          split at h
          · exact absurd h (by simp)
          · rename_i rv hrv
            try dsimp only at h
            split at h
            · exact absurd h (by simp)
            · rename_i r hfn
              obtain ⟨result, s5⟩ := r
              dsimp only at h
              simp only [Except.ok.injEq, Prod.mk.injEq] at h
              obtain ⟨h4, -⟩ := h
              rw [← h4]
              rfl
    · split at h
      · try dsimp only [Bind.bind, Except.bind] at h
        split at h
        · exact absurd h (by simp)
        · rename_i r hfn
          obtain ⟨result, s5⟩ := r
          dsimp only at h
          simp only [Except.ok.injEq, Prod.mk.injEq] at h
          obtain ⟨h4, -⟩ := h
          rw [← h4]
          rfl
      · try dsimp only [Bind.bind, Except.bind] at h
        split at h
        · exact absurd h (by simp)
        · rename_i lv hlv
          try dsimp only at h
          split at h
          · exact absurd h (by simp)
          · rename_i rv hrv
            try dsimp only at h
            split at h
            · exact absurd h (by simp)
            · rename_i r hfn
              obtain ⟨result, s5⟩ := r
              dsimp only at h
              simp only [Except.ok.injEq, Prod.mk.injEq] at h
              obtain ⟨h4, -⟩ := h
              rw [← h4]
              rfl
    · exact absurd h (by simp)
  exact ⟨hN, by rw [hN]; simp⟩

/-- Witness for C10 at a concrete mixed-width addition. -/
theorem C10_arith_result_kind_witness :
    ∃ v s2, arithmetic initState (.number "a" (.constI (.i 32) 1) none)
        (.number64 "b" (.constI (.i 64) 2) none) "+" = .ok (v, s2) ∧
      v.getType = BaseTypes.Number ∧ v.getType ≠ BaseTypes.Number64 := by
  refine ⟨_, _, rfl, ?_⟩
  exact C10_arith_result_kind initState (.number "a" (.constI (.i 32) 1) none)
    (.number64 "b" (.constI (.i 64) 2) none) "+" _ _ (Or.inr rfl) rfl

set_option maxHeartbeats 2000000 in
/-- **C5 (amended).** The sign-extension half of the claim holds in full
generality: `cast_i32_to_i64` sign-extends a 32-bit value exactly when it
is paired with a 64-bit value and returns any 64-bit value unchanged (the
64-bit operand is never truncated), so every mixed-width arithmetic
operation — any of `+`, `-`, `*`, `/`, either operand order, stored or
unstored operands — extends the 32-bit side with `sext` and combines at 64
bits; `(Number32 -1) + (Number64 5)` computes the 64-bit value 4.  What
the claim gets wrong is the result kind: the result is wrapped as a
`NumberType` carrying the 32-bit `Number` kind tag, never `Number64`. -/
theorem C5_mixed_width_sext :
    (∀ (s : CompilerState) (a b : Operand), a.width = 32 → b.width = 64 →
      castI32toI64 s a b
        = (Operand.reg s.nextReg (LTy.i 64),
           emit (freshReg s).2 (Instr.sext s.nextReg a 64))) ∧
    (∀ (s : CompilerState) (a b : Operand), a.width = 64 →
      castI32toI64 s a b = (a, s)) ∧
    (∀ (op : String), op = "+" ∨ op = "-" ∨ op = "*" ∨ op = "/" →
      ∀ (s : CompilerState) (ln : String) (lv lp : Operand) (rn : String) (rv rp : Operand),
      ∃ (s2 : CompilerState) (p : Option Operand),
        arithmetic s (.number ln lv (some lp)) (.number64 rn rv (some rp)) op
          = .ok (.number ln (.reg (s.nextReg + 3) (.i 64)) p, s2) ∧
        s2.blocks[s.currentBlock]? = (s.blocks[s.currentBlock]?).map (fun l => l ++
          [Instr.load s.nextReg (.i 32) lp,
           Instr.load (s.nextReg + 1) (.i 64) rp,
           Instr.sext (s.nextReg + 2) (.reg s.nextReg (.i 32)) 64,
           Instr.binop (s.nextReg + 3) op (.reg (s.nextReg + 2) (.i 64))
             (.reg (s.nextReg + 1) (.i 64)),
           Instr.alloca (s.nextReg + 4) (.ptr (.i 32)),
           Instr.store (.reg (s.nextReg + 3) (.i 64))
             (.reg (s.nextReg + 4) (.ptr (.ptr (.i 32))))])) ∧
    (∀ (op : String), op = "+" ∨ op = "-" ∨ op = "*" ∨ op = "/" →
      ∀ (s : CompilerState) (ln : String) (lv lp : Operand) (rn : String) (rv rp : Operand),
      ∃ (s2 : CompilerState) (p : Option Operand),
        arithmetic s (.number64 ln lv (some lp)) (.number rn rv (some rp)) op
          = .ok (.number ln (.reg (s.nextReg + 3) (.i 64)) p, s2) ∧
        s2.blocks[s.currentBlock]? = (s.blocks[s.currentBlock]?).map (fun l => l ++
          [Instr.load s.nextReg (.i 64) lp,
           Instr.load (s.nextReg + 1) (.i 32) rp,
           Instr.sext (s.nextReg + 2) (.reg (s.nextReg + 1) (.i 32)) 64,
           Instr.binop (s.nextReg + 3) op (.reg s.nextReg (.i 64))
             (.reg (s.nextReg + 2) (.i 64)),
           Instr.alloca (s.nextReg + 4) (.ptr (.i 64)),
           Instr.store (.reg (s.nextReg + 3) (.i 64))
             (.reg (s.nextReg + 4) (.ptr (.ptr (.i 64))))])) ∧
    (∀ (op : String), op = "+" ∨ op = "-" ∨ op = "*" ∨ op = "/" →
      ∀ (s : CompilerState) (ln : String) (x : Int) (rn : String) (y : Int),
      ∃ (s2 : CompilerState) (p : Option Operand),
        arithmetic s (.number ln (.constI (.i 32) x) none) (.number64 rn (.constI (.i 64) y) none) op
          = .ok (.number ln (.reg (s.nextReg + 1) (.i 64)) p, s2) ∧
        s2.blocks[s.currentBlock]? = (s.blocks[s.currentBlock]?).map (fun l => l ++
          [Instr.sext s.nextReg (.constI (.i 32) x) 64,
           Instr.binop (s.nextReg + 1) op (.reg s.nextReg (.i 64)) (.constI (.i 64) y),
           Instr.alloca (s.nextReg + 2) (.ptr (.i 32)),
           Instr.store (.reg (s.nextReg + 1) (.i 64))
             (.reg (s.nextReg + 2) (.ptr (.ptr (.i 32))))])) ∧
    (∀ (op : String), op = "+" ∨ op = "-" ∨ op = "*" ∨ op = "/" →
      ∀ (s : CompilerState) (ln : String) (x : Int) (rn : String) (y : Int),
      ∃ (s2 : CompilerState) (p : Option Operand),
        arithmetic s (.number64 ln (.constI (.i 64) x) none) (.number rn (.constI (.i 32) y) none) op
          = .ok (.number ln (.reg (s.nextReg + 1) (.i 64)) p, s2) ∧
        s2.blocks[s.currentBlock]? = (s.blocks[s.currentBlock]?).map (fun l => l ++
          [Instr.sext s.nextReg (.constI (.i 32) y) 64,
           Instr.binop (s.nextReg + 1) op (.constI (.i 64) x) (.reg s.nextReg (.i 64)),
           Instr.alloca (s.nextReg + 2) (.ptr (.i 64)),
           Instr.store (.reg (s.nextReg + 1) (.i 64))
             (.reg (s.nextReg + 2) (.ptr (.ptr (.i 64))))])) ∧
    (∃ v s2, matchAst 9 (.Binary (.Number (-1)) "+" (.Number64 5)) initState = .ok (v, s2) ∧
       v.getValue = .ok (.reg 5 (.i 64)) ∧
       lookupA (runBlocks s2.blocks 5 0 ⟨[], []⟩).2.regs 5 = some (.intv (.i 64) 4)) := by
  refine ⟨?_, ?_, ?_, ?_, ?_, ?_, ⟨_, _, rfl, by rfl, by decide⟩⟩
  · intro s a b ha hb
    unfold castI32toI64
    rw [ha, hb]
    rfl
  · intro s a b ha
    unfold castI32toI64
    rw [ha]
  · intro op hop s ln lv lp rn rv rp
    refine ⟨_, _, by
      unfold arithmetic castI32toI64 llvmBuildFn
      dsimp only [RTV.getType, RTV.getPtr, RTV.getName, RTV.getLlvmType, RTV.getLlvmPtrType,
        Operand.width, Operand.lty, LTy.width, Bind.bind, Except.bind]
      rw [if_pos hop]
      try rfl, ?_⟩
    exact blocks_at_emit_chain rfl
        [Instr.load s.nextReg (.i 32) lp, Instr.load (s.nextReg + 1) (.i 64) rp,
         Instr.sext (s.nextReg + 2) (.reg s.nextReg (.i 32)) 64,
         Instr.binop (s.nextReg + 3) op (.reg (s.nextReg + 2) (.i 64))
           (.reg (s.nextReg + 1) (.i 64)),
         Instr.alloca (s.nextReg + 4) (.ptr (.i 32))]
        (blocks_at_emit_chain rfl
          [Instr.load s.nextReg (.i 32) lp, Instr.load (s.nextReg + 1) (.i 64) rp,
           Instr.sext (s.nextReg + 2) (.reg s.nextReg (.i 32)) 64,
           Instr.binop (s.nextReg + 3) op (.reg (s.nextReg + 2) (.i 64))
             (.reg (s.nextReg + 1) (.i 64))]
          (blocks_at_emit_chain rfl
            [Instr.load s.nextReg (.i 32) lp, Instr.load (s.nextReg + 1) (.i 64) rp,
             Instr.sext (s.nextReg + 2) (.reg s.nextReg (.i 32)) 64]
            (blocks_at_emit_chain rfl
              [Instr.load s.nextReg (.i 32) lp, Instr.load (s.nextReg + 1) (.i 64) rp]
              (blocks_at_emit_chain rfl
                [Instr.load s.nextReg (.i 32) lp]
                (blocks_at_emit_chain rfl []
                  (map_append_nil (s.blocks[s.currentBlock]?))
                  (Instr.load s.nextReg (.i 32) lp))
                (Instr.load (s.nextReg + 1) (.i 64) rp))
              (Instr.sext (s.nextReg + 2) (.reg s.nextReg (.i 32)) 64))
            (Instr.binop (s.nextReg + 3) op (.reg (s.nextReg + 2) (.i 64))
              (.reg (s.nextReg + 1) (.i 64))))
          (Instr.alloca (s.nextReg + 4) (.ptr (.i 32))))
        (Instr.store (.reg (s.nextReg + 3) (.i 64))
          (.reg (s.nextReg + 4) (.ptr (.ptr (.i 32)))))
  · intro op hop s ln lv lp rn rv rp
    refine ⟨_, _, by
      unfold arithmetic castI32toI64 llvmBuildFn
      dsimp only [RTV.getType, RTV.getPtr, RTV.getName, RTV.getLlvmType, RTV.getLlvmPtrType,
        Operand.width, Operand.lty, LTy.width, Bind.bind, Except.bind]
      rw [if_pos hop]
      try rfl, ?_⟩
    exact blocks_at_emit_chain rfl
        [Instr.load s.nextReg (.i 64) lp, Instr.load (s.nextReg + 1) (.i 32) rp,
         Instr.sext (s.nextReg + 2) (.reg (s.nextReg + 1) (.i 32)) 64,
         Instr.binop (s.nextReg + 3) op (.reg s.nextReg (.i 64))
           (.reg (s.nextReg + 2) (.i 64)),
         Instr.alloca (s.nextReg + 4) (.ptr (.i 64))]
        (blocks_at_emit_chain rfl
          [Instr.load s.nextReg (.i 64) lp, Instr.load (s.nextReg + 1) (.i 32) rp,
           Instr.sext (s.nextReg + 2) (.reg (s.nextReg + 1) (.i 32)) 64,
           Instr.binop (s.nextReg + 3) op (.reg s.nextReg (.i 64))
             (.reg (s.nextReg + 2) (.i 64))]
          (blocks_at_emit_chain rfl
            [Instr.load s.nextReg (.i 64) lp, Instr.load (s.nextReg + 1) (.i 32) rp,
             Instr.sext (s.nextReg + 2) (.reg (s.nextReg + 1) (.i 32)) 64]
            (blocks_at_emit_chain rfl
              [Instr.load s.nextReg (.i 64) lp, Instr.load (s.nextReg + 1) (.i 32) rp]
              (blocks_at_emit_chain rfl
                [Instr.load s.nextReg (.i 64) lp]
                (blocks_at_emit_chain rfl []
                  (map_append_nil (s.blocks[s.currentBlock]?))
                  (Instr.load s.nextReg (.i 64) lp))
                (Instr.load (s.nextReg + 1) (.i 32) rp))
              (Instr.sext (s.nextReg + 2) (.reg (s.nextReg + 1) (.i 32)) 64))
            (Instr.binop (s.nextReg + 3) op (.reg s.nextReg (.i 64))
              (.reg (s.nextReg + 2) (.i 64))))
          (Instr.alloca (s.nextReg + 4) (.ptr (.i 64))))
        (Instr.store (.reg (s.nextReg + 3) (.i 64))
          (.reg (s.nextReg + 4) (.ptr (.ptr (.i 64)))))
  · intro op hop s ln x rn y
    refine ⟨_, _, by
      unfold arithmetic castI32toI64 llvmBuildFn
      dsimp only [RTV.getType, RTV.getPtr, RTV.getName, RTV.getValue, RTV.getLlvmPtrType,
        Operand.width, Operand.lty, LTy.width, Bind.bind, Except.bind]
      rw [if_pos hop]
      try rfl, ?_⟩
    exact blocks_at_emit_chain rfl
        [Instr.sext s.nextReg (.constI (.i 32) x) 64,
         Instr.binop (s.nextReg + 1) op (.reg s.nextReg (.i 64)) (.constI (.i 64) y),
         Instr.alloca (s.nextReg + 2) (.ptr (.i 32))]
        (blocks_at_emit_chain rfl
          [Instr.sext s.nextReg (.constI (.i 32) x) 64,
           Instr.binop (s.nextReg + 1) op (.reg s.nextReg (.i 64)) (.constI (.i 64) y)]
          (blocks_at_emit_chain rfl
            [Instr.sext s.nextReg (.constI (.i 32) x) 64]
            (blocks_at_emit_chain rfl []
              (map_append_nil (s.blocks[s.currentBlock]?))
              (Instr.sext s.nextReg (.constI (.i 32) x) 64))
            (Instr.binop (s.nextReg + 1) op (.reg s.nextReg (.i 64)) (.constI (.i 64) y)))
          (Instr.alloca (s.nextReg + 2) (.ptr (.i 32))))
        (Instr.store (.reg (s.nextReg + 1) (.i 64))
          (.reg (s.nextReg + 2) (.ptr (.ptr (.i 32)))))
  · intro op hop s ln x rn y
    refine ⟨_, _, by
      unfold arithmetic castI32toI64 llvmBuildFn
      dsimp only [RTV.getType, RTV.getPtr, RTV.getName, RTV.getValue, RTV.getLlvmPtrType,
        Operand.width, Operand.lty, LTy.width, Bind.bind, Except.bind]
      rw [if_pos hop]
      try rfl, ?_⟩
    exact blocks_at_emit_chain rfl
        [Instr.sext s.nextReg (.constI (.i 32) y) 64,
         Instr.binop (s.nextReg + 1) op (.constI (.i 64) x) (.reg s.nextReg (.i 64)),
         Instr.alloca (s.nextReg + 2) (.ptr (.i 64))]
        (blocks_at_emit_chain rfl
          [Instr.sext s.nextReg (.constI (.i 32) y) 64,
           Instr.binop (s.nextReg + 1) op (.constI (.i 64) x) (.reg s.nextReg (.i 64))]
          (blocks_at_emit_chain rfl
            [Instr.sext s.nextReg (.constI (.i 32) y) 64]
            (blocks_at_emit_chain rfl []
              (map_append_nil (s.blocks[s.currentBlock]?))
              (Instr.sext s.nextReg (.constI (.i 32) y) 64))
            (Instr.binop (s.nextReg + 1) op (.constI (.i 64) x) (.reg s.nextReg (.i 64))))
          (Instr.alloca (s.nextReg + 2) (.ptr (.i 64))))
        (Instr.store (.reg (s.nextReg + 1) (.i 64))
          (.reg (s.nextReg + 2) (.ptr (.ptr (.i 64)))))

/-- Counterexample to C5 as stated: the result of
`(Number32 -1) + (Number64 5)` carries the `Number` kind tag, not
`Number64` as the claim requires. -/
theorem C5_counterexample :
    ∃ v s2, matchAst 9 (.Binary (.Number (-1)) "+" (.Number64 5)) initState = .ok (v, s2) ∧
      v.getType = BaseTypes.Number ∧ BaseTypes.Number ≠ BaseTypes.Number64 :=
  ⟨_, _, rfl, rfl, by decide⟩

/-- **C6.** String `+` concatenates at lowering time: the result is a fresh
constant String whose content is the textual join of the operands' contents
with every embedded double-quote removed, and no instruction is emitted
(the state is unchanged). -/
theorem C6_string_concat (s : CompilerState) (h : "sprintf" ∈ s.llvmFuncCache)
    (ln lc : String) (lv : Operand) (lp : Option Operand)
    (rn rc : String) (rv : Operand) (rp : Option Operand) :
    arithmetic s (.strv ln lc lv lp) (.strv rn rc rv rp) "+"
      = .ok (.strv ln (stripQuotes (lc ++ rc)) (.cstr (stripQuotes (lc ++ rc)))
              (some (.cstr (stripQuotes (lc ++ rc)))), s) := by
  unfold arithmetic
  rw [if_pos h]
  rfl

/-- Witness for C6: `"a" + "b\"c"` yields the literal content `abc`. -/
theorem C6_string_concat_witness :
    ("sprintf" ∈ initState.llvmFuncCache) ∧
    arithmetic initState (.strv "lhs" "a" (.cstr "a") none)
        (.strv "rhs" "b\"c" (.cstr "b\"c") none) "+"
      = .ok (.strv "lhs" (stripQuotes ("a" ++ "b\"c")) (.cstr (stripQuotes ("a" ++ "b\"c")))
              (some (.cstr (stripQuotes ("a" ++ "b\"c")))), initState) ∧
    stripQuotes ("a" ++ "b\"c") = "abc" :=
  ⟨by decide,
   C6_string_concat initState (by decide) "lhs" "a" (.cstr "a") none "rhs" "b\"c" (.cstr "b\"c") none,
   by decide⟩

/-- **C7 (amended).** Lowering a Call node with a callee absent from the
function table fails with `UnknownIdentifier` naming the callee; when the
lowering succeeds, the call result is re-bound in the variable table under
the function's own name, and a later variable read of that name observes
the call result.  (The "only if" direction of the claim fails: see the
counterexample.) -/
theorem C7_call_binding :
    (∀ (fuel : Nat) (name : String) (args : List Expression) (s : CompilerState),
        s.funcCache.get name = none →
        matchAst (fuel + 1) (.CallStmt name args) s = .error (.unknownIdentifier name)) ∧
    (∀ (fuel : Nat) (name : String) (args : List Expression) (s : CompilerState)
        (v : RTV) (s2 : CompilerState),
        matchAst (fuel + 1) (.CallStmt name args) s = .ok (v, s2) →
        s2.varCache.get name = some v) ∧
    (∃ v s2, matchAst 9 (.BlockStmt [.CallStmt "f" [], .Variable "f"])
        (funcSet initState "f" (.funcv "f" .i32)) = .ok (v, s2) ∧
      v = .number "call_value" (.reg 0 (.i 32)) none) := by
  refine ⟨?_, ?_, ?_⟩
  · intro fuel name args s h
    simp only [matchAst]
    rw [h]
  · intro fuel name args s v s2 h
    simp only [matchAst] at h
    split at h
    · rename_i val hval
      try dsimp only [Bind.bind, Except.bind] at h
      split at h
      · exact absurd h (by simp)
      · rename_i r hcall
        obtain ⟨callVal, s3⟩ := r
        try dsimp only at h
        simp only [Except.ok.injEq, Prod.mk.injEq] at h
        obtain ⟨h1, h2⟩ := h
        subst h2
        rw [← h1]
        exact VariableCache.get_set_self _ name callVal _
    · exact absurd h (by simp)
  · exact ⟨_, _, rfl, rfl⟩

/-- Counterexample to C7 as stated: with the callee `f` present in the
function table, the call still fails with `UnknownIdentifier` (for its
unknown argument `x`), so the failure is not equivalent to the callee
being absent. -/
theorem C7_counterexample :
    (funcSet initState "f" (.funcv "f" .i32)).funcCache.get "f" = some (.funcv "f" .i32) ∧
    matchAst 9 (.CallStmt "f" [.Variable "x"]) (funcSet initState "f" (.funcv "f" .i32))
      = .error (.unknownIdentifier "x") ∧
    "x" ≠ "f" :=
  ⟨rfl, rfl, by decide⟩

/-- **C8.** Re-binding a bound name: a right-hand side of a different kind
fails with `KindMismatch`, and an unbound name gets a fresh binding — but
re-binding a String name to another String emits a byte load from the
binding's OWN cell and stores it back to that same cell (the right-hand
side is never read), so a later read still observes the old content `"a"`,
not `"b"`. -/
theorem C8_string_rebind_ignores_rhs :
    (matchAst 9 (.BlockStmt [.LetStmt "s" .strTy (.Str "a"), .LetStmt "s" .i32 (.Number 1)])
        initState = .error .kindMismatch) ∧
    (∃ v s2, matchAst 9 (.BlockStmt [.LetStmt "s" .strTy (.Str "a"),
        .LetStmt "s" .strTy (.Str "b"), .Variable "s"]) initState = .ok (v, s2) ∧
      v.getStrVal = some "a" ∧ "a" ≠ "b" ∧
      s2.blocks = [[.load 0 (.i 8) (.cstr "a"), .store (.reg 0 (.i 8)) (.cstr "a")]]) ∧
    (∃ v s2, matchAst 9 (.LetStmt "t" .strTy (.Str "x")) initState = .ok (v, s2) ∧
      s2.varCache.get "t" = some v) :=
  ⟨rfl, ⟨_, _, rfl, rfl, by decide, rfl⟩, ⟨_, _, rfl, rfl⟩⟩

/-- **C9.** `cmp` of two String operands answers lowering-time content
equality for EVERY requested operator (the operator is never examined),
and operator dispatch in both `cmp` and `arithmetic` inspects only the
right operand's kind (a non-String left operand with a String right
operand still enters the String branch; a Bool right operand sends
`arithmetic` to the unreachable branch no matter the left operand). -/
theorem C9_cmp_dispatches_on_rhs :
    (∀ (s : CompilerState) (ln lc : String) (lv : Operand) (lp : Option Operand)
        (rn rc : String) (rv : Operand) (rp : Option Operand) (op : String),
      cmp s (.strv ln lc lv lp) (.strv rn rc rv rp) op
        = .ok (.boolv "bool_value" (.constI (.i 1) (if lc = rc then 1 else 0))
            (.reg s.nextReg (.ptr (.i 1))),
           (buildAllocaStore s (.constI (.i 1) (if lc = rc then 1 else 0)) (.i 1)).2)) ∧
    (∀ (s : CompilerState) (n : String) (nv : Operand) (np : Option Operand)
        (rn rc : String) (rv : Operand) (rp : Option Operand) (op : String),
      cmp s (.number n nv np) (.strv rn rc rv rp) op = .error (.panicAbort "get_str")) ∧
    (∀ (s : CompilerState) (lhs : RTV) (n : String) (bv bp : Operand) (op : String),
      arithmetic s lhs (.boolv n bv bp) op = .error (.panicAbort "arithmetic unreachable kinds")) := by
  refine ⟨?_, fun _ _ _ _ _ _ _ _ _ => rfl, fun _ _ _ _ _ _ => rfl⟩
  intro s ln lc lv lp rn rc rv rp op
  by_cases hc : lc = rc
  · subst hc
    unfold cmp
    simp [RTV.getType, RTV.getStr, Bind.bind, Except.bind]
    rfl
  · unfold cmp
    simp [RTV.getType, RTV.getStr, Bind.bind, Except.bind, hc]
    rfl

/-- **C1.** For every `while` statement, the condition expression is lowered
exactly once, before the loop blocks are entered (the lowering call is made
on the pre-loop state, right after the three loop blocks and the scratch
bool cell are created); the final `loop_cond` block contains exactly a
re-load of the condition's storage cell and the conditional branch — the
condition expression is never re-lowered there. -/
theorem C1_while_cond_lowered_once (n : Nat) (c bo : Expression) (s : CompilerState)
    (v : RTV) (s2 : CompilerState) (hwf : WF s)
    (h : newWhileStmt (n + 1) c bo s = .ok (v, s2)) :
    ∃ (sCond : CompilerState) (condRTV : RTV) (p : Operand) (d : Nat),
      matchAst n c (buildAlloca (appendBB (appendBB (appendBB s).2).2).2 (LTy.i 1)).2
        = .ok (condRTV, sCond) ∧
      condRTV.getPtr = some p ∧ v = condRTV ∧
      s2.blocks[s.blocks.length]?
        = some [Instr.load d (LTy.i 1) p,
                Instr.condBr (Operand.reg d (LTy.i 1)) (s.blocks.length + 1)
                  (s.blocks.length + 2)] := by
  rw [newWhileStmt] at h
  rw [Except.bind_ok] at h
  obtain ⟨⟨vc, s7⟩, hcond, h⟩ := h
  dsimp only at h
  split at h
  · rename_i p hp
    dsimp only [Bind.bind, Except.bind] at h
    split at h
    · exact absurd h (by simp)
    rename_i bres hbody
    obtain ⟨bv, s12⟩ := bres
    dsimp only at h
    simp only [Except.ok.injEq, Prod.mk.injEq] at h
    obtain ⟨hv, h2⟩ := h
    subst h2
    set sA := (appendBB (appendBB (appendBB s).2).2).2 with hsA
    set s6 := (buildAlloca sA (.i 1)).2 with hs6
    have hAb : sA.blocks = s.blocks ++ [[]] ++ [[]] ++ [[]] := rfl
    have hAc : sA.currentBlock = s.currentBlock := rfl
    have hAl : sA.blocks.length = s.blocks.length + 3 := by simp [hAb]
    have e6 : EmitsOnly sA s6 := emitsOnly_buildAlloca sA (.i 1)
    have hwf6 : WF s6 := by
      unfold WF at hwf ⊢
      rw [e6.cur, e6.len, hAc, hAl]
      omega
    have f7 : Frames s6 s7 := matchAst_frames n c s6 vc s7 hwf6 hcond
    have hlen7 : s.blocks.length + 3 ≤ s7.blocks.length := by
      have := f7.lenLe; rw [e6.len, hAl] at this; exact this
    have hcur7 : s7.currentBlock = s.currentBlock ∨ s.blocks.length + 3 ≤ s7.currentBlock := by
      rcases f7.curOr with hc | hc
      · exact Or.inl (by rw [hc, e6.cur, hAc])
      · exact Or.inr (by rw [e6.len, hAl] at hc; exact hc)
    set s10 := buildBr (buildStore (buildLoad s7 (.i 1) p).2 (buildLoad s7 (.i 1) p).1
      (buildAlloca sA (.i 1)).1) (appendBB s).1 with hs10
    set s11 := setCurrent s10 (appendBB (appendBB s).2).1 with hs11
    have e10 : EmitsOnly s7 s10 :=
      ((emitsOnly_buildLoad s7 (.i 1) p).step _).step _
    have hid2 : (appendBB (appendBB s).2).1 = s.blocks.length + 1 := by
      simp [appendBB]
    have hid3 : (appendBB (appendBB (appendBB s).2).2).1 = s.blocks.length + 2 := by
      simp [appendBB]
    have h11b : s11.blocks = s10.blocks := rfl
    have h11c : s11.currentBlock = s.blocks.length + 1 := by
      rw [hs11, setCurrent, hid2]
    have hwf11 : WF s11 := by
      unfold WF
      rw [h11c]
      have : s11.blocks.length = s7.blocks.length := by rw [h11b, e10.len]
      omega
    have f12 : Frames s11 s12 := matchAst_frames n bo s11 bv s12 hwf11 hbody
    set s14 := setCurrent (buildBr s12 (appendBB s).1) (appendBB s).1 with hs14
    have hne : s.blocks.length ≠ s.currentBlock := by unfold WF at hwf; omega
    have hA : sA.blocks[s.blocks.length]? = some ([] : List Instr) := by
      rw [hAb]
      rw [getElem?_append_lt _ _ _ (by simp), getElem?_append_lt _ _ _ (by simp)]
      exact List.getElem?_concat_length _ _
    have h6 : s6.blocks[s.blocks.length]? = some [] :=
      (e6.pres _ (by rw [hAc]; exact hne)).trans hA
    have h7 : s7.blocks[s.blocks.length]? = some [] := by
      refine (f7.presBlk _ ?_ ?_).trans h6
      · rw [e6.len, hAl]; omega
      · rw [e6.cur, hAc]; exact hne
    have h10 : s10.blocks[s.blocks.length]? = some [] := by
      refine (e10.pres _ ?_).trans h7
      rcases hcur7 with hc | hc
      · rw [hc]; exact hne
      · omega
    have h12 : s12.blocks[s.blocks.length]? = some [] := by
      refine (f12.presBlk _ ?_ ?_).trans h10
      · rw [h11b, e10.len]; omega
      · rw [h11c]; omega
    have h13 : (buildBr s12 (appendBB s).1).blocks[s.blocks.length]? = some [] := by
      refine ((emitsOnly_buildBr s12 _).pres _ ?_).trans h12
      rcases f12.curOr with hc | hc
      · rw [hc, h11c]; omega
      · rw [h11b, e10.len] at hc
        omega
    refine ⟨s7, vc, p, s14.nextReg, hcond, hp, hv.symm, ?_⟩
    have hbase : (freshReg s14).2.blocks[s.blocks.length]?
        = (some ([] : List Instr)).map (fun l => l ++ []) := h13
    have hcb := blocks_at_emit_chain rfl [Instr.load s14.nextReg (LTy.i 1) p]
      (blocks_at_emit_chain rfl [] hbase (Instr.load s14.nextReg (LTy.i 1) p))
      (Instr.condBr (Operand.reg s14.nextReg (LTy.i 1)) (appendBB (appendBB s).2).1
        (appendBB (appendBB (appendBB s).2).2).1)
    have hcb2 : (buildCondBr (buildLoad s14 (LTy.i 1) p).2 (buildLoad s14 (LTy.i 1) p).1
        (appendBB (appendBB s).2).1
        (appendBB (appendBB (appendBB s).2).2).1).blocks[s.blocks.length]?
        = some [Instr.load s14.nextReg (LTy.i 1) p,
            Instr.condBr (Operand.reg s14.nextReg (LTy.i 1)) (appendBB (appendBB s).2).1
              (appendBB (appendBB (appendBB s).2).2).1] := hcb
    rw [← hid2, ← hid3]
    exact hcb2
  · exact absurd h (by simp [Bind.bind, Except.bind])

/-- Witness for C1 at a concrete `while true {}` loop. -/
theorem C1_while_cond_lowered_once_witness :
    ∃ v s2, newWhileStmt 9 (.Bool true) (.BlockStmt []) initState = .ok (v, s2) ∧
      (∃ (sCond : CompilerState) (condRTV : RTV) (p : Operand) (d : Nat),
        matchAst 8 (.Bool true)
            (buildAlloca (appendBB (appendBB (appendBB initState).2).2).2 (LTy.i 1)).2
          = .ok (condRTV, sCond) ∧
        condRTV.getPtr = some p ∧ v = condRTV ∧
        s2.blocks[initState.blocks.length]?
          = some [Instr.load d (LTy.i 1) p,
                  Instr.condBr (Operand.reg d (LTy.i 1)) (initState.blocks.length + 1)
                    (initState.blocks.length + 2)]) := by
  refine ⟨_, _, rfl, ?_⟩
  exact C1_while_cond_lowered_once 8 (.Bool true) (.BlockStmt []) initState _ _ (by decide) rfl

/-- **C3 (amended).** The for-loop comparison predicate is chosen once from
the sign of the step literal, but the split is `st < 0`, not `st > 0`: the
emitted `loop_cond` block compares with signed-less-than for every
non-negative step (including 0) and signed-greater-than only for a negative
step.  The concrete loops behave as claimed: `for i = 0, 5, 1` observes
i = 0,1,2,3,4 at the body block, and `for i = 5, 0, -1` observes 5,4,3,2,1,
stopping before the bound. -/
theorem C3_for_predicate_from_step_sign :
    (∀ (n : Nat) (vn : String) (a bd st : Int) (bo : Expression) (s : CompilerState)
        (v : RTV) (s2 : CompilerState), WF s →
      newForLoop (n + 1) vn a bd st bo s = .ok (v, s2) →
      ∃ (r d : Nat),
        s2.blocks[s.blocks.length]? = some
          [Instr.load r (LTy.i 32) (Operand.reg s.nextReg (LTy.ptr (LTy.ptr (LTy.i 32)))),
           Instr.icmp d (if st < 0 then Pred.sgt else Pred.slt) (Operand.reg r (LTy.i 32))
             (Operand.constI (LTy.i 32) (wrapU 32 bd)),
           Instr.condBr (Operand.reg d (LTy.i 1)) (s.blocks.length + 1) (s.blocks.length + 2)]) ∧
    (∃ v s2, matchAst 9 (.ForStmt "i" 0 5 1 (.BlockStmt [])) initState = .ok (v, s2) ∧
      entryValuesAt (runBlocks s2.blocks 30 0 ⟨[], []⟩).1 2 0
        = [.intv (.i 32) 0, .intv (.i 32) 1, .intv (.i 32) 2, .intv (.i 32) 3,
           .intv (.i 32) 4]) ∧
    (∃ v s2, matchAst 9 (.ForStmt "i" 5 0 (-1) (.BlockStmt [])) initState = .ok (v, s2) ∧
      entryValuesAt (runBlocks s2.blocks 30 0 ⟨[], []⟩).1 2 0
        = [.intv (.i 32) 5, .intv (.i 32) 4, .intv (.i 32) 3, .intv (.i 32) 2,
           .intv (.i 32) 1]) := by
  refine ⟨?_, ⟨_, _, rfl, by decide⟩, ⟨_, _, rfl, by decide⟩⟩
  intro n vn a bd st bo s v s2 hwf h
  rw [newForLoop] at h
  dsimp only at h
  split at h
  · exact absurd h (by simp)
  · dsimp only [Bind.bind, Except.bind] at h
    split at h
    · exact absurd h (by simp)
    rename_i bres hbody
    obtain ⟨bv, s12⟩ := bres
    dsimp only at h
    simp only [Except.ok.injEq, Prod.mk.injEq] at h
    obtain ⟨-, h2⟩ := h
    subst h2
    set value := Operand.constI (LTy.i 32) (wrapU 32 a) with hval
    set sA := (appendBB (appendBB (appendBB s).2).2).2 with hsA
    set ptr := (buildAllocaStore sA value (LTy.i 32).ptr).1 with hptr
    set sVS := varSet (buildAllocaStore sA value (LTy.i 32).ptr).2 vn
      (RTV.number "i" value (some ptr)) with hsVS
    set s10 := buildBr (buildStore sVS value ptr) (appendBB s).1 with hs10
    set s11 := setCurrent s10 (appendBB s).1 with hs11
    have hid2 : (appendBB (appendBB s).2).1 = s.blocks.length + 1 := by simp [appendBB]
    have hid3 : (appendBB (appendBB (appendBB s).2).2).1 = s.blocks.length + 2 := by
      simp [appendBB]
    have hAb : sA.blocks = s.blocks ++ [[]] ++ [[]] ++ [[]] := rfl
    have hAc : sA.currentBlock = s.currentBlock := rfl
    have hAl : sA.blocks.length = s.blocks.length + 3 := by simp [hAb]
    have e10 : EmitsOnly sA s10 :=
      (((emitsOnly_buildAllocaStore sA value (LTy.i 32).ptr).varSet _ _).step _).step _
    have h11b : s11.blocks = s10.blocks := rfl
    have h11c : s11.currentBlock = s.blocks.length := rfl
    set sBody := setCurrent (buildCondBr
        (emit (freshReg (buildLoad s11 (LTy.i 32) ptr).2).2
          (Instr.icmp (freshReg (buildLoad s11 (LTy.i 32) ptr).2).1
            (if st < 0 then Pred.sgt else Pred.slt)
            (buildLoad s11 (LTy.i 32) ptr).1 (Operand.constI (LTy.i 32) (wrapU 32 bd))))
        (Operand.reg (freshReg (buildLoad s11 (LTy.i 32) ptr).2).1 (LTy.i 1))
        (appendBB (appendBB s).2).1 (appendBB (appendBB (appendBB s).2).2).1)
      (appendBB (appendBB s).2).1 with hsBody
    have eCond : EmitsOnly s11 (buildCondBr
        (emit (freshReg (buildLoad s11 (LTy.i 32) ptr).2).2
          (Instr.icmp (freshReg (buildLoad s11 (LTy.i 32) ptr).2).1
            (if st < 0 then Pred.sgt else Pred.slt)
            (buildLoad s11 (LTy.i 32) ptr).1 (Operand.constI (LTy.i 32) (wrapU 32 bd))))
        (Operand.reg (freshReg (buildLoad s11 (LTy.i 32) ptr).2).1 (LTy.i 1))
        (appendBB (appendBB s).2).1 (appendBB (appendBB (appendBB s).2).2).1) :=
      ((((emitsOnly_buildLoad s11 (LTy.i 32) ptr).upd (Eq.refl _) (Eq.refl _)).step _).step _)
    have hBodyb : sBody.blocks.length = s11.blocks.length := by
      rw [hsBody]
      exact eCond.len
    have hBodyc : sBody.currentBlock = s.blocks.length + 1 := hid2
    have hwfBody : WF sBody := by
      unfold WF
      rw [hBodyc, hBodyb, h11b, e10.len, hAl]
      omega
    have f12 : Frames sBody s12 := matchAst_frames n bo sBody bv s12 hwfBody hbody
    set sTail := buildBr (buildStore
        (emit (freshReg (buildLoad s12 (LTy.i 32) ptr).2).2
          (Instr.binop (freshReg (buildLoad s12 (LTy.i 32) ptr).2).1 "+"
            (buildLoad s12 (LTy.i 32) ptr).1 (Operand.constI (LTy.i 32) (wrapU 32 st))))
        (Operand.reg (freshReg (buildLoad s12 (LTy.i 32) ptr).2).1 (LTy.i 32)) ptr)
      (appendBB s).1 with hsTail
    have eTail : EmitsOnly s12 sTail := by
      rw [hsTail]
      exact ((((emitsOnly_buildLoad s12 (LTy.i 32) ptr).upd (Eq.refl _) (Eq.refl _)).step _).step _).step _
    have hne : s.blocks.length ≠ s.currentBlock := by unfold WF at hwf; omega
    have hA : sA.blocks[s.blocks.length]? = some ([] : List Instr) := by
      rw [hAb]
      rw [getElem?_append_lt _ _ _ (by simp), getElem?_append_lt _ _ _ (by simp)]
      exact List.getElem?_concat_length _ _
    have h10 : s10.blocks[s.blocks.length]? = some [] :=
      (e10.pres _ (by rw [hAc]; exact hne)).trans hA
    have hbase : (freshReg s11).2.blocks[s.blocks.length]?
        = (some ([] : List Instr)).map (fun l => l ++ []) := h10
    have hcb := blocks_at_emit_chain rfl
      [Instr.load s11.nextReg (LTy.i 32) ptr,
       Instr.icmp (buildLoad s11 (LTy.i 32) ptr).2.nextReg (if st < 0 then Pred.sgt else Pred.slt)
         (Operand.reg s11.nextReg (LTy.i 32)) (Operand.constI (LTy.i 32) (wrapU 32 bd))]
      (blocks_at_emit_chain rfl [Instr.load s11.nextReg (LTy.i 32) ptr]
        (blocks_at_emit_chain rfl [] hbase (Instr.load s11.nextReg (LTy.i 32) ptr))
        (Instr.icmp (buildLoad s11 (LTy.i 32) ptr).2.nextReg (if st < 0 then Pred.sgt else Pred.slt)
          (Operand.reg s11.nextReg (LTy.i 32)) (Operand.constI (LTy.i 32) (wrapU 32 bd))))
      (Instr.condBr (Operand.reg (buildLoad s11 (LTy.i 32) ptr).2.nextReg (LTy.i 1))
        (appendBB (appendBB s).2).1 (appendBB (appendBB (appendBB s).2).2).1)
    have hCondSet : sBody.blocks[s.blocks.length]?
        = some [Instr.load s11.nextReg (LTy.i 32) ptr,
            Instr.icmp (buildLoad s11 (LTy.i 32) ptr).2.nextReg
              (if st < 0 then Pred.sgt else Pred.slt)
              (Operand.reg s11.nextReg (LTy.i 32)) (Operand.constI (LTy.i 32) (wrapU 32 bd)),
            Instr.condBr (Operand.reg (buildLoad s11 (LTy.i 32) ptr).2.nextReg (LTy.i 1))
              (appendBB (appendBB s).2).1 (appendBB (appendBB (appendBB s).2).2).1] := hcb
    have h12 : s12.blocks[s.blocks.length]? = sBody.blocks[s.blocks.length]? := by
      refine f12.presBlk _ ?_ ?_
      · rw [hBodyb, h11b, e10.len, hAl]; omega
      · rw [hBodyc]; omega
    have hT : sTail.blocks[s.blocks.length]? = s12.blocks[s.blocks.length]? := by
      refine eTail.pres _ ?_
      rcases f12.curOr with hc | hc
      · rw [hc, hBodyc]; omega
      · rw [hBodyb, h11b, e10.len, hAl] at hc; omega
    refine ⟨s11.nextReg, (buildLoad s11 (LTy.i 32) ptr).2.nextReg, ?_⟩
    have hfin : (setCurrent sTail (appendBB (appendBB (appendBB s).2).2).1).blocks[s.blocks.length]?
        = sTail.blocks[s.blocks.length]? := rfl
    rw [hfin, hT, h12, hCondSet, hid2, hid3]
    rfl

/-- Counterexample to C3 as stated: with step literal 0 the claim's
"`>` otherwise" arm applies (0 > 0 is false), yet the lowered `loop_cond`
block compares with signed-less-than, not signed-greater-than. -/
theorem C3_counterexample_step_zero :
    ∃ v s2, matchAst 9 (.ForStmt "i" 0 5 0 (.BlockStmt [])) initState = .ok (v, s2) ∧
      s2.blocks[1]? = some
        [.load 1 (.i 32) (.reg 0 (.ptr (.ptr (.i 32)))),
         .icmp 2 .slt (.reg 1 (.i 32)) (.constI (.i 32) 5),
         .condBr (.reg 2 (.i 1)) 2 3] ∧
      ¬((0 : Int) > 0) ∧ Pred.slt ≠ Pred.sgt :=
  ⟨_, _, rfl, rfl, by decide, by decide⟩

/-! ## Helper lemmas for the if-statement claim: the common tail of
`new_if_stmt` (reposition at the entry block, load the condition cell,
emit the conditional branch, finish at `merge`). -/

theorem if_final_at (s1 sE : CompilerState) (p : Operand) (eId entry : Nat) :
    ∀ b, b ≠ entry →
      (setCurrent (buildCondBr
        (buildLoad (setCurrent (setCurrent sE (appendBB (appendBB s1).2).1) entry)
          (LTy.i 1) p).2
        (buildLoad (setCurrent (setCurrent sE (appendBB (appendBB s1).2).1) entry)
          (LTy.i 1) p).1
        (appendBB s1).1 eId) (appendBB (appendBB s1).2).1).blocks[b]?
      = sE.blocks[b]? := by
  intro b hb
  exact ((emitsOnly_buildLoad
    (setCurrent (setCurrent sE (appendBB (appendBB s1).2).1) entry) (LTy.i 1) p).step
      (Instr.condBr
        (buildLoad (setCurrent (setCurrent sE (appendBB (appendBB s1).2).1) entry)
          (LTy.i 1) p).1 (appendBB s1).1 eId)).pres b hb

theorem if_final_entry (s1 sE : CompilerState) (p : Operand) (eId entry : Nat)
    (x : Option (List Instr)) (hx : sE.blocks[entry]? = x) :
    (setCurrent (buildCondBr
      (buildLoad (setCurrent (setCurrent sE (appendBB (appendBB s1).2).1) entry)
        (LTy.i 1) p).2
      (buildLoad (setCurrent (setCurrent sE (appendBB (appendBB s1).2).1) entry)
        (LTy.i 1) p).1
      (appendBB s1).1 eId) (appendBB (appendBB s1).2).1).blocks[entry]?
    = x.map (fun l => l ++
        [Instr.load sE.nextReg (LTy.i 1) p,
         Instr.condBr (Operand.reg sE.nextReg (LTy.i 1)) (appendBB s1).1 eId]) := by
  have hbase : (freshReg (setCurrent (setCurrent sE (appendBB (appendBB s1).2).1)
      entry)).2.blocks[entry]? = x.map (fun l => l ++ []) :=
    (hx : (setCurrent (setCurrent sE (appendBB (appendBB s1).2).1)
      entry).blocks[entry]? = x).trans (map_append_nil x)
  exact blocks_at_emit_chain rfl [Instr.load sE.nextReg (LTy.i 1) p]
    (blocks_at_emit_chain rfl [] hbase (Instr.load sE.nextReg (LTy.i 1) p))
    (Instr.condBr (Operand.reg sE.nextReg (LTy.i 1)) (appendBB s1).1 eId)

theorem if_final_pos (s1 sE : CompilerState) (p : Operand) (eId entry : Nat)
    (hlen : s1.blocks.length + 2 ≤ sE.blocks.length) :
    (setCurrent (buildCondBr
      (buildLoad (setCurrent (setCurrent sE (appendBB (appendBB s1).2).1) entry)
        (LTy.i 1) p).2
      (buildLoad (setCurrent (setCurrent sE (appendBB (appendBB s1).2).1) entry)
        (LTy.i 1) p).1
      (appendBB s1).1 eId) (appendBB (appendBB s1).2).1).currentBlock
      = s1.blocks.length + 1 ∧
    (setCurrent (buildCondBr
      (buildLoad (setCurrent (setCurrent sE (appendBB (appendBB s1).2).1) entry)
        (LTy.i 1) p).2
      (buildLoad (setCurrent (setCurrent sE (appendBB (appendBB s1).2).1) entry)
        (LTy.i 1) p).1
      (appendBB s1).1 eId) (appendBB (appendBB s1).2).1).currentBlock
      < (setCurrent (buildCondBr
      (buildLoad (setCurrent (setCurrent sE (appendBB (appendBB s1).2).1) entry)
        (LTy.i 1) p).2
      (buildLoad (setCurrent (setCurrent sE (appendBB (appendBB s1).2).1) entry)
        (LTy.i 1) p).1
      (appendBB s1).1 eId) (appendBB (appendBB s1).2).1).blocks.length := by
  have hcur : (setCurrent (buildCondBr
      (buildLoad (setCurrent (setCurrent sE (appendBB (appendBB s1).2).1) entry)
        (LTy.i 1) p).2
      (buildLoad (setCurrent (setCurrent sE (appendBB (appendBB s1).2).1) entry)
        (LTy.i 1) p).1
      (appendBB s1).1 eId) (appendBB (appendBB s1).2).1).currentBlock
      = s1.blocks.length + 1 := by
    show (appendBB (appendBB s1).2).1 = s1.blocks.length + 1
    simp [appendBB]
  have hl : (setCurrent (buildCondBr
      (buildLoad (setCurrent (setCurrent sE (appendBB (appendBB s1).2).1) entry)
        (LTy.i 1) p).2
      (buildLoad (setCurrent (setCurrent sE (appendBB (appendBB s1).2).1) entry)
        (LTy.i 1) p).1
      (appendBB s1).1 eId) (appendBB (appendBB s1).2).1).blocks.length
      = sE.blocks.length :=
    ((emitsOnly_buildLoad
      (setCurrent (setCurrent sE (appendBB (appendBB s1).2).1) entry) (LTy.i 1) p).step
        (Instr.condBr
          (buildLoad (setCurrent (setCurrent sE (appendBB (appendBB s1).2).1) entry)
            (LTy.i 1) p).1 (appendBB s1).1 eId)).len
  exact ⟨hcur, by omega⟩

/-- **C2.** For every if statement: the condition is lowered in the entry
block; the then branch is lowered into a fresh block and a branch to
`merge` is emitted if and only if it did not yield the Return marker
(symmetrically for a present else branch; a missing else yields a fresh
block holding exactly the branch to `merge`); the conditional branch
(true to then, false to else) is emitted back in the entry block; and the
`merge` block becomes the current position unconditionally — even when
both branches return. -/
theorem C2_if_lowering (n : Nat) (c t : Expression) (e : Option Expression)
    (s : CompilerState) (v : RTV) (s2 : CompilerState) (hwf : WF s)
    (h : newIfStmt (n + 1) c t e s = .ok (v, s2)) :
    ∃ condv s1 stmt sT,
      matchAst n c s = .ok (condv, s1) ∧
      matchAst n t (setCurrent (appendBB (appendBB s1).2).2 (appendBB s1).1)
        = .ok (stmt, sT) ∧
      (stmt.getType ≠ BaseTypes.Return →
        s2.blocks[sT.currentBlock]?
          = (sT.blocks[sT.currentBlock]?).map
              (fun l => l ++ [Instr.br (s1.blocks.length + 1)])) ∧
      (stmt.getType = BaseTypes.Return →
        s2.blocks[sT.currentBlock]? = sT.blocks[sT.currentBlock]?) ∧
      (e = none → s2.blocks[sT.blocks.length]? = some [Instr.br (s1.blocks.length + 1)]) ∧
      (∀ e0, e = some e0 → ∃ stmt2 sE,
        matchAst n e0 (setCurrent (appendBB (if stmt.getType = BaseTypes.Return then sT
            else buildBr sT (s1.blocks.length + 1))).2 sT.blocks.length) = .ok (stmt2, sE) ∧
        (stmt2.getType ≠ BaseTypes.Return →
          s2.blocks[sE.currentBlock]?
            = (sE.blocks[sE.currentBlock]?).map
                (fun l => l ++ [Instr.br (s1.blocks.length + 1)])) ∧
        (stmt2.getType = BaseTypes.Return →
          s2.blocks[sE.currentBlock]? = sE.blocks[sE.currentBlock]?)) ∧
      (∃ d p, condv.getPtr = some p ∧
        s2.blocks[s.currentBlock]? = (s1.blocks[s.currentBlock]?).map (fun l => l ++
          [Instr.load d (LTy.i 1) p,
           Instr.condBr (Operand.reg d (LTy.i 1)) s1.blocks.length sT.blocks.length])) ∧
      s2.currentBlock = s1.blocks.length + 1 ∧ s2.currentBlock < s2.blocks.length := by
  rw [newIfStmt] at h
  rw [Except.bind_ok] at h
  obtain ⟨⟨cv, s1⟩, hcond, h⟩ := h
  dsimp only at h
  rw [Except.bind_ok] at h
  obtain ⟨⟨tv, sthen⟩, hthen, h⟩ := h
  dsimp only at h
  have f1 : Frames s s1 := matchAst_frames n c s cv s1 hwf hcond
  have hf1 := f1.lenLe
  have hwfS : s.currentBlock < s.blocks.length := hwf
  set thenStart := setCurrent (appendBB (appendBB s1).2).2 (appendBB s1).1
    with hthenStart
  have hTSl : thenStart.blocks.length = s1.blocks.length + 2 := by
    simp [hthenStart, setCurrent, appendBB]
  have hTSc : thenStart.currentBlock = s1.blocks.length := rfl
  have hwfTS : WF thenStart := by unfold WF; rw [hTSl, hTSc]; omega
  have f2 : Frames thenStart sthen := matchAst_frames n t thenStart tv sthen hwfTS hthen
  have hTHl : s1.blocks.length + 2 ≤ sthen.blocks.length := by
    have := f2.lenLe; rw [hTSl] at this; exact this
  have hTHc : s1.blocks.length ≤ sthen.currentBlock := by
    rcases f2.curOr with hc | hc
    · rw [hc, hTSc]
    · rw [hTSl] at hc; omega
  have hsTlt : sthen.currentBlock < sthen.blocks.length := f2.wf2
  have hmid : (appendBB (appendBB s1).2).1 = s1.blocks.length + 1 := by simp [appendBB]
  have hpresE2 : ∀ b, b < s1.blocks.length → sthen.blocks[b]? = s1.blocks[b]? := by
    intro b hb
    have h0 := f2.presBlk b (by rw [hTSl]; omega) (by rw [hTSc]; omega)
    calc sthen.blocks[b]? = thenStart.blocks[b]? := h0
      _ = ((appendBB s1).2.blocks ++ [[]])[b]? := rfl
      _ = s1.blocks[b]? := by
          rw [getElem?_append_lt _ _ _ (by simp [appendBB]; omega)]
          exact getElem?_append_lt _ _ _ hb
  set tIte := if decide (tv.getType = BaseTypes.Return) = true then sthen
    else buildBr sthen (appendBB (appendBB s1).2).1 with htIte
  have eIte : EmitsOnly sthen tIte := emitsOnly_iteBr _ sthen _
  have hIl : tIte.blocks.length = sthen.blocks.length := eIte.len
  have hTite1 : tv.getType = BaseTypes.Return → tIte.blocks = sthen.blocks := by
    intro hret
    rw [htIte, if_pos (by simp [hret])]
  have hTite2 : tv.getType ≠ BaseTypes.Return →
      tIte.blocks[sthen.currentBlock]?
        = (sthen.blocks[sthen.currentBlock]?).map
            (fun l => l ++ [Instr.br (appendBB (appendBB s1).2).1]) := by
    intro hret
    rw [htIte, if_neg (by simp [hret])]
    exact blocks_at_emit rfl _
  have hIpres : ∀ b, b ≠ sthen.currentBlock → tIte.blocks[b]? = sthen.blocks[b]? :=
    fun b hb => eIte.pres b hb
  have hstate : (if tv.getType = BaseTypes.Return then sthen
      else buildBr sthen (s1.blocks.length + 1)) = tIte := by
    rw [htIte, ← hmid]
    by_cases hr : tv.getType = BaseTypes.Return
    · rw [if_pos hr, if_pos (by simp [hr])]
    · rw [if_neg hr, if_neg (by simp [hr])]
  clear_value tIte
  split at h
  · -- else present
    rename_i vStmt
    rw [Except.bind_ok] at h
    obtain ⟨⟨ev, selse⟩, helse, h⟩ := h
    dsimp only at h
    have hESl : (setCurrent (appendBB tIte).2 (appendBB tIte).1).blocks.length
        = tIte.blocks.length + 1 := by
      show (tIte.blocks ++ [[]]).length = tIte.blocks.length + 1
      simp
    have hESc : (setCurrent (appendBB tIte).2 (appendBB tIte).1).currentBlock
        = tIte.blocks.length := rfl
    have hwfES : WF (setCurrent (appendBB tIte).2 (appendBB tIte).1) := by
      unfold WF; rw [hESl, hESc]; omega
    have f3 : Frames (setCurrent (appendBB tIte).2 (appendBB tIte).1) selse :=
      matchAst_frames n vStmt _ ev selse hwfES helse
    have hEl : tIte.blocks.length + 1 ≤ selse.blocks.length := by
      have := f3.lenLe; rw [hESl] at this; exact this
    have hEc : tIte.blocks.length ≤ selse.currentBlock := by
      rcases f3.curOr with hc | hc
      · rw [hc, hESc]
      · rw [hESl] at hc; omega
    have hpres3 : ∀ b, b < tIte.blocks.length → selse.blocks[b]? = tIte.blocks[b]? := by
      intro b hb
      have h0 := f3.presBlk b (by rw [hESl]; omega) (by rw [hESc]; omega)
      calc selse.blocks[b]? = (setCurrent (appendBB tIte).2 (appendBB tIte).1).blocks[b]? := h0
        _ = (tIte.blocks ++ [[]])[b]? := rfl
        _ = tIte.blocks[b]? := getElem?_append_lt _ _ _ hb
    split at h
    · -- else branch yielded Return
      rename_i hEret
      dsimp only [Pure.pure, Bind.bind, Except.bind, Except.pure] at h
      split at h
      · rename_i p hp
        simp only [Except.ok.injEq, Prod.mk.injEq] at h
        obtain ⟨-, h2⟩ := h
        subst h2
        refine ⟨cv, s1, tv, sthen, hcond, hthen, ?_, ?_, ?_, ?_, ?_, ?_, ?_⟩
        · intro hret
          rw [if_final_at s1 selse p (appendBB tIte).1 s.currentBlock
            sthen.currentBlock (by omega)]
          rw [hpres3 sthen.currentBlock (by omega), hTite2 hret, hmid]
        · intro hret
          rw [if_final_at s1 selse p (appendBB tIte).1 s.currentBlock
            sthen.currentBlock (by omega)]
          rw [hpres3 sthen.currentBlock (by omega), hTite1 hret]
        · intro hn
          exact Option.noConfusion hn
        · intro e0 he0
          injection he0 with he0
          subst he0
          refine ⟨ev, selse, ?_, ?_, ?_⟩
          · rw [hstate, ← hIl]
            exact helse
          · intro hne
            exact absurd hEret hne
          · intro hret2
            rw [if_final_at s1 selse p (appendBB tIte).1 s.currentBlock
              selse.currentBlock (by omega)]
        · refine ⟨selse.nextReg, p, hp, ?_⟩
          rw [← hIl]
          refine if_final_entry s1 selse p (appendBB tIte).1 s.currentBlock
            (s1.blocks[s.currentBlock]?) ?_
          rw [hpres3 s.currentBlock (by omega), hIpres s.currentBlock (by omega)]
          exact hpresE2 s.currentBlock (by omega)
        · exact (if_final_pos s1 selse p (appendBB tIte).1 s.currentBlock (by omega)).1
        · exact (if_final_pos s1 selse p (appendBB tIte).1 s.currentBlock (by omega)).2
      · exact absurd h (by simp)
    · -- else branch branches to merge
      rename_i hEret
      dsimp only [Pure.pure, Bind.bind, Except.bind, Except.pure] at h
      split at h
      · rename_i p hp
        simp only [Except.ok.injEq, Prod.mk.injEq] at h
        obtain ⟨-, h2⟩ := h
        subst h2
        have eB : EmitsOnly selse (buildBr selse (appendBB (appendBB s1).2).1) :=
          emitsOnly_buildBr selse (appendBB (appendBB s1).2).1
        refine ⟨cv, s1, tv, sthen, hcond, hthen, ?_, ?_, ?_, ?_, ?_, ?_, ?_⟩
        · intro hret
          rw [if_final_at s1 (buildBr selse (appendBB (appendBB s1).2).1) p
            (appendBB tIte).1 s.currentBlock sthen.currentBlock (by omega)]
          rw [eB.pres sthen.currentBlock (by omega)]
          rw [hpres3 sthen.currentBlock (by omega), hTite2 hret, hmid]
        · intro hret
          rw [if_final_at s1 (buildBr selse (appendBB (appendBB s1).2).1) p
            (appendBB tIte).1 s.currentBlock sthen.currentBlock (by omega)]
          rw [eB.pres sthen.currentBlock (by omega)]
          rw [hpres3 sthen.currentBlock (by omega), hTite1 hret]
        · intro hn
          exact Option.noConfusion hn
        · intro e0 he0
          injection he0 with he0
          subst he0
          refine ⟨ev, selse, ?_, ?_, ?_⟩
          · rw [hstate, ← hIl]
            exact helse
          · intro hne2
            rw [if_final_at s1 (buildBr selse (appendBB (appendBB s1).2).1) p
              (appendBB tIte).1 s.currentBlock selse.currentBlock (by omega)]
            have hBr : (buildBr selse (appendBB (appendBB s1).2).1).blocks[selse.currentBlock]?
                = (selse.blocks[selse.currentBlock]?).map
                    (fun l => l ++ [Instr.br (appendBB (appendBB s1).2).1]) :=
              blocks_at_emit rfl _
            rw [hBr, hmid]
          · intro hret2
            exact absurd hret2 hEret
        · refine ⟨selse.nextReg, p, hp, ?_⟩
          rw [← hIl]
          refine if_final_entry s1 (buildBr selse (appendBB (appendBB s1).2).1) p
            (appendBB tIte).1 s.currentBlock (s1.blocks[s.currentBlock]?) ?_
          rw [eB.pres s.currentBlock (by omega)]
          rw [hpres3 s.currentBlock (by omega), hIpres s.currentBlock (by omega)]
          exact hpresE2 s.currentBlock (by omega)
        · refine (if_final_pos s1 (buildBr selse (appendBB (appendBB s1).2).1) p
            (appendBB tIte).1 s.currentBlock ?_).1
          rw [eB.len]; omega
        · refine (if_final_pos s1 (buildBr selse (appendBB (appendBB s1).2).1) p
            (appendBB tIte).1 s.currentBlock ?_).2
          rw [eB.len]; omega
      · exact absurd h (by simp)
  · -- else absent
    dsimp only [Pure.pure, Bind.bind, Except.bind, Except.pure] at h
    split at h
    · rename_i p hp
      simp only [Except.ok.injEq, Prod.mk.injEq] at h
      obtain ⟨-, h2⟩ := h
      subst h2
      have eB : EmitsOnly (setCurrent (appendBB tIte).2 (appendBB tIte).1)
          (buildBr (setCurrent (appendBB tIte).2 (appendBB tIte).1)
            (appendBB (appendBB s1).2).1) :=
        emitsOnly_buildBr _ _
      have hESc : (setCurrent (appendBB tIte).2 (appendBB tIte).1).currentBlock
          = tIte.blocks.length := rfl
      have hq : (buildBr (setCurrent (appendBB tIte).2 (appendBB tIte).1)
          (appendBB (appendBB s1).2).1).blocks.length = tIte.blocks.length + 1 := by
        rw [eB.len]
        show (tIte.blocks ++ [[]]).length = tIte.blocks.length + 1
        simp
      refine ⟨cv, s1, tv, sthen, hcond, hthen, ?_, ?_, ?_, ?_, ?_, ?_, ?_⟩
      · intro hret
        rw [if_final_at s1 (buildBr (setCurrent (appendBB tIte).2 (appendBB tIte).1)
          (appendBB (appendBB s1).2).1) p (appendBB tIte).1 s.currentBlock
          sthen.currentBlock (by omega)]
        rw [eB.pres sthen.currentBlock (by rw [hESc]; omega)]
        have hq2 : (setCurrent (appendBB tIte).2 (appendBB tIte).1).blocks[sthen.currentBlock]?
            = tIte.blocks[sthen.currentBlock]? :=
          getElem?_append_lt _ _ _ (by omega)
        rw [hq2, hTite2 hret, hmid]
      · intro hret
        rw [if_final_at s1 (buildBr (setCurrent (appendBB tIte).2 (appendBB tIte).1)
          (appendBB (appendBB s1).2).1) p (appendBB tIte).1 s.currentBlock
          sthen.currentBlock (by omega)]
        rw [eB.pres sthen.currentBlock (by rw [hESc]; omega)]
        have hq2 : (setCurrent (appendBB tIte).2 (appendBB tIte).1).blocks[sthen.currentBlock]?
            = tIte.blocks[sthen.currentBlock]? :=
          getElem?_append_lt _ _ _ (by omega)
        rw [hq2, hTite1 hret]
      · intro hn
        rw [← hIl]
        rw [if_final_at s1 (buildBr (setCurrent (appendBB tIte).2 (appendBB tIte).1)
          (appendBB (appendBB s1).2).1) p (appendBB tIte).1 s.currentBlock
          tIte.blocks.length (by omega)]
        have hfresh : (setCurrent (appendBB tIte).2 (appendBB tIte).1).blocks[tIte.blocks.length]?
            = some [] := by
          show (tIte.blocks ++ [[]])[tIte.blocks.length]? = some []
          exact List.getElem?_concat_length _ _
        have hBr : (buildBr (setCurrent (appendBB tIte).2 (appendBB tIte).1)
            (appendBB (appendBB s1).2).1).blocks[tIte.blocks.length]?
            = ((setCurrent (appendBB tIte).2 (appendBB tIte).1).blocks[tIte.blocks.length]?).map
                (fun l => l ++ [Instr.br (appendBB (appendBB s1).2).1]) :=
          blocks_at_emit rfl _
        rw [hBr, hfresh, hmid]
        rfl
      · intro e0 he0
        exact Option.noConfusion he0
      · refine ⟨tIte.nextReg, p, hp, ?_⟩
        rw [← hIl]
        refine if_final_entry s1 (buildBr (setCurrent (appendBB tIte).2 (appendBB tIte).1)
          (appendBB (appendBB s1).2).1) p (appendBB tIte).1 s.currentBlock
          (s1.blocks[s.currentBlock]?) ?_
        rw [eB.pres s.currentBlock (by rw [hESc]; omega)]
        have hq2 : (setCurrent (appendBB tIte).2 (appendBB tIte).1).blocks[s.currentBlock]?
            = tIte.blocks[s.currentBlock]? :=
          getElem?_append_lt _ _ _ (by omega)
        rw [hq2, hIpres s.currentBlock (by omega)]
        exact hpresE2 s.currentBlock (by omega)
      · exact (if_final_pos s1 (buildBr (setCurrent (appendBB tIte).2 (appendBB tIte).1)
          (appendBB (appendBB s1).2).1) p (appendBB tIte).1 s.currentBlock (by omega)).1
      · exact (if_final_pos s1 (buildBr (setCurrent (appendBB tIte).2 (appendBB tIte).1)
          (appendBB (appendBB s1).2).1) p (appendBB tIte).1 s.currentBlock (by omega)).2
    · exact absurd h (by simp)

/-- Witness for C2 at a concrete `if true {}` with no else. -/
theorem C2_if_lowering_witness :
    ∃ v s2, newIfStmt 9 (.Bool true) (.BlockStmt []) none initState = .ok (v, s2) ∧
      (∃ condv s1 stmt sT,
        matchAst 8 (.Bool true) initState = .ok (condv, s1) ∧
        matchAst 8 (.BlockStmt [])
            (setCurrent (appendBB (appendBB s1).2).2 (appendBB s1).1) = .ok (stmt, sT) ∧
        (stmt.getType ≠ BaseTypes.Return →
          s2.blocks[sT.currentBlock]?
            = (sT.blocks[sT.currentBlock]?).map
                (fun l => l ++ [Instr.br (s1.blocks.length + 1)])) ∧
        (stmt.getType = BaseTypes.Return →
          s2.blocks[sT.currentBlock]? = sT.blocks[sT.currentBlock]?) ∧
        ((none : Option Expression) = none →
          s2.blocks[sT.blocks.length]? = some [Instr.br (s1.blocks.length + 1)]) ∧
        (∀ e0, (none : Option Expression) = some e0 → ∃ stmt2 sE,
          matchAst 8 e0 (setCurrent (appendBB (if stmt.getType = BaseTypes.Return then sT
              else buildBr sT (s1.blocks.length + 1))).2 sT.blocks.length) = .ok (stmt2, sE) ∧
          (stmt2.getType ≠ BaseTypes.Return →
            s2.blocks[sE.currentBlock]?
              = (sE.blocks[sE.currentBlock]?).map
                  (fun l => l ++ [Instr.br (s1.blocks.length + 1)])) ∧
          (stmt2.getType = BaseTypes.Return →
            s2.blocks[sE.currentBlock]? = sE.blocks[sE.currentBlock]?)) ∧
        (∃ d p, condv.getPtr = some p ∧
          s2.blocks[initState.currentBlock]? = (s1.blocks[initState.currentBlock]?).map
            (fun l => l ++
              [Instr.load d (LTy.i 1) p,
               Instr.condBr (Operand.reg d (LTy.i 1)) s1.blocks.length sT.blocks.length])) ∧
        s2.currentBlock = s1.blocks.length + 1 ∧ s2.currentBlock < s2.blocks.length) := by
  refine ⟨_, _, rfl, ?_⟩
  exact C2_if_lowering 8 (.Bool true) (.BlockStmt []) none initState _ _ (by decide) rfl

end Cyclang
